import Mathlib

/-!
Verification of the SOL25 parser front-end.

A shallow embedding of `parse.py` (SOL25 lexer, parser, semantic analyzer and
XML emitter) together with proofs about the embedded definitions.

All recursive definitions are structural (on an explicit fuel argument or on a
list), so every definition evaluates inside the kernel (`rfl` / `decide`).
Fuel exhaustion is signalled by `Option.none` or by the sentinel error code 98,
which never corresponds to a behaviour of the Python program; every concrete
computation below is run with enough fuel, as witnessed by its result being a
genuine value or a genuine SOL25 error code.
-/

namespace SOL25

/-! ## Error codes (from the top of parse.py) -/

def ERR_LEXICAL : Nat := 21
def ERR_SYNTACTIC : Nat := 22
def ERR_MISSING_MAIN : Nat := 31
def ERR_UNDEFINED_VAR : Nat := 32
def ERR_ARITY : Nat := 33
def ERR_VAR_COLLISION : Nat := 34
def ERR_SEMANTIC_OTHER : Nat := 35
def ERR_INTERNAL : Nat := 99
/-- Sentinel for fuel exhaustion of the embedding; not a Python exit code. -/
def ERR_FUEL : Nat := 98
/-- Sentinel for an uncaught Python exception (e.g. `AttributeError` when a
`Send` is built from a target that has no `pos` attribute); the interpreter
would terminate abnormally, which is not one of the defined exit codes. -/
def ERR_CRASH : Nat := 97

/-! ## Character classes, mirroring the Python `re` behaviour on the
patterns used in `Lexer.token_specification` (ASCII classes `[a-zA-Z_]`,
`\d`, and `\s`; the sources analysed here are ASCII). -/

def isPySpace (c : Char) : Bool :=
  c.toNat = 32 ∨ (9 ≤ c.toNat ∧ c.toNat ≤ 13) ∨ (28 ≤ c.toNat ∧ c.toNat ≤ 31) ∨
  c.toNat = 133 ∨ c.toNat = 160 ∨ c.toNat = 0x1680 ∨
  (0x2000 ≤ c.toNat ∧ c.toNat ≤ 0x200a) ∨ c.toNat = 0x2028 ∨ c.toNat = 0x2029 ∨
  c.toNat = 0x202f ∨ c.toNat = 0x205f ∨ c.toNat = 0x3000

def isAsciiLetter (c : Char) : Bool :=
  ('a' ≤ c ∧ c ≤ 'z') ∨ ('A' ≤ c ∧ c ≤ 'Z')

def isAsciiDigit (c : Char) : Bool :=
  '0' ≤ c ∧ c ≤ '9'

/-- First character of the `IDENT` pattern `[a-zA-Z_][a-zA-Z0-9_]*`. -/
def isIdentStart (c : Char) : Bool :=
  isAsciiLetter c || c = '_'

/-- Continuation character of the `IDENT` pattern. -/
def isIdentCont (c : Char) : Bool :=
  isAsciiLetter c || isAsciiDigit c || c = '_'

/-! ## Small string helpers (all over `List Char` / `String.mk`) -/

/-- Number of `':'` characters in a string (selector colon count). -/
def countColons (s : String) : Nat :=
  s.data.countP (· = ':')

/-- Python `s.endswith(":")`. -/
def endsColon (s : String) : Bool :=
  match s.data.getLast? with
  | some c => c = ':'
  | none => false

/-- Python `s[:-1]`. -/
def strDropLast (s : String) : String :=
  String.mk s.data.dropLast

/-- Python `":" in s` for the colon character. -/
def hasColon (s : String) : Bool :=
  s.data.any (· = ':')

/-- Python `"_" in s`. -/
def hasUnderscore (s : String) : Bool :=
  s.data.any (· = '_')

/-- Python `s[0].isupper()`; names produced by the lexer are nonempty, so the
out-of-range case (a Python `IndexError`) is mapped to `false`. -/
def headIsUpper (s : String) : Bool :=
  match s.data with
  | c :: _ => c.isUpper
  | [] => false

/-- Python `s[0].islower()`; same remark as `headIsUpper`. -/
def headIsLower (s : String) : Bool :=
  match s.data with
  | c :: _ => c.isLower
  | [] => false

/-- Python `s[0].islower() or s[0] == '_'`. -/
def headIsLowerOrUnderscore (s : String) : Bool :=
  match s.data with
  | c :: _ => c.isLower || c = '_'
  | [] => false

/-- The reserved identifiers `{"self", "super", "true", "false", "nil", "class"}`. -/
def reservedList : List String :=
  ["self", "super", "true", "false", "nil", "class"]

/-- `l₁` is a prefix of `l₂` (decidable scan). -/
def isPrefixL : List Char → List Char → Bool
  | [], _ => true
  | _ :: _, [] => false
  | c :: cs, d :: ds => c = d && isPrefixL cs ds

/-- Does `pat` occur as a contiguous subsequence of `s`? -/
def containsSeq (pat : List Char) : List Char → Bool
  | [] => isPrefixL pat []
  | c :: cs => isPrefixL pat (c :: cs) || containsSeq pat cs

/-- Python `str.replace(pat, repl)` (left-to-right, non-overlapping), as a
structural scan; `skip` counts source characters of a match still to discard. -/
def replaceAux (pat repl : List Char) : Nat → List Char → List Char
  | _, [] => []
  | n+1, _ :: cs => replaceAux pat repl n cs
  | 0, c :: cs =>
    if isPrefixL pat (c :: cs) then
      repl ++ replaceAux pat repl (pat.length - 1) cs
    else
      c :: replaceAux pat repl 0 cs

/-- Python `str.replace(pat, repl)` for a nonempty pattern. -/
def replaceSeq (pat repl : List Char) (s : List Char) : List Char :=
  replaceAux pat repl 0 s

/-! ## Tokens and the lexer (`class Lexer`, `process_string_literal`) -/

inductive TokType where
  | COMMENT | ASSIGN | NUMBER | STRING | IDENT | COLON
  | LBRACKET | RBRACKET | LBRACE | RBRACE | LPAREN | RPAREN | PIPE | DOT
deriving DecidableEq, Repr

structure Token where
  type : TokType
  value : String
  pos : Nat
deriving DecidableEq, Repr

/-- Scan the body of a `'…'` or `"…"` literal: the regex
`DELIM (?:\\.|[^DELIM\\])* DELIM` (with `re.DOTALL`).  On success returns the
raw content (without the delimiters) and the remaining input; `none` when no
closing delimiter is reachable, in which case the regex alternative fails. -/
def scanDelim (delim : Char) : List Char → Option (List Char × List Char)
  | [] => none
  | c :: cs =>
    if c = delim then some ([], cs)
    else if c = '\\' then
      match cs with
      | [] => none
      | d :: cs' =>
        match scanDelim delim cs' with
        | some (content, rest) => some (c :: d :: content, rest)
        | none => none
    else
      match scanDelim delim cs with
      | some (content, rest) => some (c :: content, rest)
      | none => none

/-- `process_string_literal`, applied to the content between the quotes:
resolves `\'`, `\n`, `\\`; any other escape or a raw character with codepoint
≤ 31 exits with `ERR_LEXICAL`. -/
def processStringContent : List Char → Except Nat (List Char)
  | [] => .ok []
  | '\\' :: rest =>
    match rest with
    | [] => .error ERR_LEXICAL
    | e :: rest' =>
      if e = '\'' then (processStringContent rest').map (fun r => '\'' :: r)
      else if e = 'n' then (processStringContent rest').map (fun r => '\n' :: r)
      else if e = '\\' then (processStringContent rest').map (fun r => '\\' :: r)
      else .error ERR_LEXICAL
  | c :: rest =>
    if c.toNat ≤ 31 then .error ERR_LEXICAL
    else (processStringContent rest).map (fun r => c :: r)

/-- Prepend a token to the result of the rest of the scan. -/
def withTok (t : Token) (r : Except Nat (List Token)) : Except Nat (List Token) :=
  match r with
  | .ok ts => .ok (t :: ts)
  | .error e => .error e

/-- Does the list start with the given character? -/
def headIs (x : Char) : List Char → Bool
  | y :: _ => y = x
  | [] => false

/-- Does the list start with an ASCII digit? -/
def headDigit : List Char → Bool
  | y :: _ => isAsciiDigit y
  | [] => false

/-- The action taken by one step of `Lexer.tokenize`: skip (whitespace), emit
a token, or exit with a lexical error.  `rest` is the remaining input and
`n` the number of characters consumed. -/
inductive LexAction where
  | skip (rest : List Char) (n : Nat)
  | tok (t : Token) (rest : List Char) (n : Nat)
  | err (e : Nat)

/-- One step of `Lexer.tokenize` at a nonempty input `c :: cs` and position
`pos`: the alternatives of `master_pattern` are tried in specification order
(whitespace, comment, `:=`, number, string, identifier, single-character
tokens, any other character). -/
def lexStep (c : Char) (cs : List Char) (pos : Nat) : LexAction :=
  if isPySpace c then
    -- WHITESPACE: skipped, no token
    let run := (c :: cs).takeWhile isPySpace
    .skip ((c :: cs).dropWhile isPySpace) run.length
  else if c = '"' then
    -- COMMENT: raw text (including the quotes) is kept as the value
    match scanDelim '"' cs with
    | some (content, rest) =>
      let raw := '"' :: content ++ ['"']
      .tok ⟨.COMMENT, String.mk raw, pos⟩ rest raw.length
    | none => .err ERR_LEXICAL  -- lone '"' falls through to OTHER
  else if c = ':' && headIs '=' cs then
    .tok ⟨.ASSIGN, ":=", pos⟩ (cs.drop 1) 2
  else if (c = '+' || c = '-') && headDigit cs then
    -- NUMBER with sign
    let digits := cs.takeWhile isAsciiDigit
    .tok ⟨.NUMBER, String.mk (c :: digits), pos⟩ (cs.dropWhile isAsciiDigit) (1 + digits.length)
  else if isAsciiDigit c then
    -- NUMBER without sign
    let digits := (c :: cs).takeWhile isAsciiDigit
    .tok ⟨.NUMBER, String.mk digits, pos⟩ ((c :: cs).dropWhile isAsciiDigit) digits.length
  else if c = '\'' then
    -- STRING: the token carries the *decoded* value
    match scanDelim '\'' cs with
    | some (content, rest) =>
      match processStringContent content with
      | .ok decoded => .tok ⟨.STRING, String.mk decoded, pos⟩ rest (content.length + 2)
      | .error e => .err e
    | none => .err ERR_LEXICAL  -- unterminated string falls through to OTHER
  else if isIdentStart c then
    let run := (c :: cs).takeWhile isIdentCont
    .tok ⟨.IDENT, String.mk run, pos⟩ ((c :: cs).dropWhile isIdentCont) run.length
  else if c = ':' then .tok ⟨.COLON, ":", pos⟩ cs 1
  else if c = '[' then .tok ⟨.LBRACKET, "[", pos⟩ cs 1
  else if c = ']' then .tok ⟨.RBRACKET, "]", pos⟩ cs 1
  else if c = '\x7b' then .tok ⟨.LBRACE, "\x7b", pos⟩ cs 1
  else if c = '\x7d' then .tok ⟨.RBRACE, "\x7d", pos⟩ cs 1
  else if c = '(' then .tok ⟨.LPAREN, "(", pos⟩ cs 1
  else if c = ')' then .tok ⟨.RPAREN, ")", pos⟩ cs 1
  else if c = '|' then .tok ⟨.PIPE, "|", pos⟩ cs 1
  else if c = '.' then .tok ⟨.DOT, ".", pos⟩ cs 1
  else .err ERR_LEXICAL  -- OTHER: any other character is a lexical error

/-- The loop of `Lexer.tokenize`.  Fuel decreases by one per lexeme;
`tokenize` supplies `length + 1`, which always suffices since every lexeme is
nonempty. -/
def lexLoop : Nat → List Char → Nat → Except Nat (List Token)
  | _, [], _ => .ok []
  | 0, _ :: _, _ => .error ERR_FUEL
  | fuel+1, c :: cs, pos =>
    match lexStep c cs pos with
    | .skip rest n => lexLoop fuel rest (pos + n)
    | .tok t rest n => withTok t (lexLoop fuel rest (pos + n))
    | .err e => .error e

/-- `Lexer(code).tokenize()`. -/
def tokenize (src : String) : Except Nat (List Token) :=
  lexLoop (src.data.length + 1) src.data 0

end SOL25

namespace SOL25

/-! ## AST node classes (`Program`, `ClassDef`, `Method`, `Block`, `Parameter`,
`Assignment`, `Var`, `Literal`, `Send`).

`Assignment.var` is a `Var` node in Python (a name and a position); here the
two fields are inlined as `var`/`varPos`.  A `Block` has *no* source position
in Python — hence `exprPos?` below is partial, mirroring the `AttributeError`
that `base.pos` raises on a block. -/

structure Param where
  name : String
  order : Nat
deriving DecidableEq, Repr

structure AssignT (E : Type) where
  var : String
  varPos : Nat
  expr : E
  order : Nat
deriving Repr

inductive Expr where
  | lit (litClass : String) (value : String) (pos : Nat)
  | var (name : String) (pos : Nat)
  | blk (params : List Param) (assigns : List (AssignT Expr))
  | send (selector : String) (target : Expr) (args : List Expr) (pos : Nat)
deriving Repr

abbrev Assign := AssignT Expr

structure Block where
  params : List Param
  assigns : List Assign
deriving Repr

/-- A method body block, seen as an expression node (the Python `Block` object
is the same object in both roles). -/
def Block.toExpr (b : Block) : Expr :=
  .blk b.params b.assigns

structure Method where
  selector : String
  block : Block
deriving Repr

structure ClassDef where
  name : String
  parent : String
  methods : List Method
deriving Repr

structure Program where
  classes : List ClassDef
  description : Option String
deriving Repr

/-- The `pos` attribute of an expression node; `none` for a block literal,
which has no such attribute in Python (accessing it raises `AttributeError`). -/
def exprPos? : Expr → Option Nat
  | .lit _ _ p => some p
  | .var _ p => some p
  | .blk _ _ => none
  | .send _ _ _ p => some p

/-! ## Parser (`class Parser`)

The mutually recursive parsing methods are merged into the single
fuel-indexed function `parseStep`; each `PReq` constructor corresponds to one
Python method (or to one of its internal `while` loops, with the loop's
accumulated state).  `PErr.syn` is `ERR_SYNTACTIC`; `PErr.fuel` is fuel
exhaustion (never a Python behaviour); `PErr.crash` marks an uncaught Python
`AttributeError` (abnormal interpreter termination). -/

structure PSt where
  pos : Nat
  lastEnd : Nat
deriving DecidableEq, Repr

inductive PErr where
  | syn | fuel | crash
deriving DecidableEq, Repr

def curTok (ts : List Token) (st : PSt) : Option Token :=
  ts.get? st.pos

/-- `Parser.consume`: checks for end of input, optionally checks the token
type, advances `pos` and updates `last_token_end`. -/
def consume (ts : List Token) (st : PSt) (expected : Option TokType) :
    Except PErr (Token × PSt) :=
  match ts.get? st.pos with
  | none => .error .syn
  | some t =>
    match expected with
    | some ty =>
      if t.type = ty then .ok (t, ⟨st.pos + 1, t.pos + t.value.length⟩)
      else .error .syn
    | none => .ok (t, ⟨st.pos + 1, t.pos + t.value.length⟩)

inductive PReq where
  | classList
  | klass
  | methodList (acc : List Method)
  | method
  | selector
  | selLoop (acc : String)
  | block
  | paramLoop (order : Nat) (acc : List Param)
  | assignLoop (order : Nat) (acc : List Assign)
  | assignment (order : Nat)
  | expr
  | exprBase
  | exprTail (base : Expr)
  | sendTail (base : Expr)
  | sendLoop (base : Expr) (parts : String) (args : List Expr)

/-- Guard of the subsequent-components loop of `_parse_send_tail`:
`current is not None and current.type == "IDENT" and pos+1 < len(tokens) and
tokens[pos+1].type == "COLON"`. -/
def sendLoopCont (ts : List Token) (st : PSt) : Bool :=
  match ts.get? st.pos, ts.get? (st.pos + 1) with
  | some t1, some t2 => t1.type == TokType.IDENT && t2.type == TokType.COLON
  | _, _ => false

inductive PRes where
  | classes (cs : List ClassDef)
  | klass (c : ClassDef)
  | methods (ms : List Method)
  | method (m : Method)
  | sel (s : String)
  | blk (b : Block)
  | params (ps : List Param)
  | assigns (xs : List Assign)
  | assign (a : Assign)
  | expr (e : Expr)
deriving Repr

def parseStep (ts : List Token) : Nat → PReq → PSt → Except PErr (PRes × PSt)
  | 0, _, _ => .error .fuel
  | fuel+1, req, st =>
    match req with
    | .classList =>
      -- `Parser.parse`: loop `while self.current_token is not None`
      match curTok ts st with
      | none => .ok (.classes [], st)
      | some _ => do
        let (r1, st1) ← parseStep ts fuel .klass st
        match r1 with
        | .klass c => do
          let (r2, st2) ← parseStep ts fuel .classList st1
          match r2 with
          | .classes cs => .ok (.classes (c :: cs), st2)
          | _ => .error .fuel
        | _ => .error .fuel
    | .klass => do
      -- `Parser.parse_class`
      let (tok, st1) ← consume ts st (some .IDENT)
      if tok.value ≠ "class" then .error .syn else do
      let (cname, st2) ← consume ts st1 (some .IDENT)
      if !headIsUpper cname.value || hasUnderscore cname.value then .error .syn else do
      let (_, st3) ← consume ts st2 (some .COLON)
      let (pname, st4) ← consume ts st3 (some .IDENT)
      if !headIsUpper pname.value || hasUnderscore pname.value then .error .syn else do
      let (_, st5) ← consume ts st4 (some .LBRACE)
      let (r, st6) ← parseStep ts fuel (.methodList []) st5
      match r with
      | .methods ms => do
        let (_, st7) ← consume ts st6 (some .RBRACE)
        .ok (.klass ⟨cname.value, pname.value, ms⟩, st7)
      | _ => .error .fuel
    | .methodList acc =>
      -- loop `while current is not None and current.type != "RBRACE"`
      match curTok ts st with
      | none => .ok (.methods acc, st)
      | some t =>
        if t.type = .RBRACE then .ok (.methods acc, st)
        else do
          let (r, st1) ← parseStep ts fuel .method st
          match r with
          | .method m => parseStep ts fuel (.methodList (acc ++ [m])) st1
          | _ => .error .fuel
    | .method => do
      -- `Parser.parse_method`
      let (r1, st1) ← parseStep ts fuel .selector st
      match r1 with
      | .sel s => do
        let (r2, st2) ← parseStep ts fuel .block st1
        match r2 with
        | .blk b => .ok (.method ⟨s, b⟩, st2)
        | _ => .error .fuel
      | _ => .error .fuel
    | .selector => do
      -- `Parser.parse_selector` up to the colon loop
      let (tok, st1) ← consume ts st (some .IDENT)
      if !headIsLower tok.value then .error .syn
      else parseStep ts fuel (.selLoop tok.value) st1
    | .selLoop acc =>
      -- loop `while current is not None and current.type == "COLON"`,
      -- then the reserved-word check on the complete selector
      match curTok ts st with
      | some t =>
        if t.type = .COLON then
          if t.pos ≠ st.lastEnd then .error .syn
          else do
            let (_, st1) ← consume ts st (some .COLON)
            match curTok ts st1 with
            | some t2 =>
              if t2.type = .IDENT then
                if t2.pos ≠ st1.lastEnd then .error .syn
                else do
                  let (tok2, st2) ← consume ts st1 (some .IDENT)
                  parseStep ts fuel (.selLoop (acc ++ ":" ++ tok2.value)) st2
              else parseStep ts fuel (.selLoop (acc ++ ":")) st1
            | none => parseStep ts fuel (.selLoop (acc ++ ":")) st1
        else
          if hasColon acc = false && reservedList.contains acc then .error .syn
          else .ok (.sel acc, st)
      | none =>
        if hasColon acc = false && reservedList.contains acc then .error .syn
        else .ok (.sel acc, st)
    | .block => do
      -- `Parser.parse_block`
      let (_, st1) ← consume ts st (some .LBRACKET)
      match curTok ts st1 with
      | some t =>
        if t.type = .PIPE then do
          let (_, st2) ← consume ts st1 (some .PIPE)
          let (r, st3) ← parseStep ts fuel (.assignLoop 1 []) st2
          match r with
          | .assigns xs => do
            let (_, st4) ← consume ts st3 (some .RBRACKET)
            .ok (.blk ⟨[], xs⟩, st4)
          | _ => .error .fuel
        else if t.type = .COLON then do
          let (r0, st2) ← parseStep ts fuel (.paramLoop 1 []) st1
          match r0 with
          | .params ps => do
            let (r, st3) ← parseStep ts fuel (.assignLoop 1 []) st2
            match r with
            | .assigns xs => do
              let (_, st4) ← consume ts st3 (some .RBRACKET)
              .ok (.blk ⟨ps, xs⟩, st4)
            | _ => .error .fuel
          | _ => .error .fuel
        else .error .syn
      | none => .error .syn
    | .paramLoop order acc =>
      -- parameter-declaration loop of `parse_block`, then the `'|'` check
      match curTok ts st with
      | some t =>
        if t.type = .COLON then do
          let (colonTok, st1) ← consume ts st (some .COLON)
          match curTok ts st1 with
          | none => .error .syn
          | some t2 =>
            if t2.type ≠ .IDENT then .error .syn
            else if t2.pos ≠ colonTok.pos + colonTok.value.length then .error .syn
            else do
              let (p, st2) ← consume ts st1 (some .IDENT)
              if !headIsLowerOrUnderscore p.value then .error .syn
              else if reservedList.contains p.value then .error .syn
              else parseStep ts fuel (.paramLoop (order+1) (acc ++ [⟨p.value, order⟩])) st2
        else
          if t.type ≠ .PIPE then .error .syn
          else do
            let (_, st1) ← consume ts st (some .PIPE)
            .ok (.params acc, st1)
      | none => .error .syn
    | .assignLoop order acc =>
      -- loop `while current is not None and current.type != "RBRACKET"`
      match curTok ts st with
      | none => .ok (.assigns acc, st)
      | some t =>
        if t.type = .RBRACKET then .ok (.assigns acc, st)
        else do
          let (r, st1) ← parseStep ts fuel (.assignment order) st
          match r with
          | .assign a => parseStep ts fuel (.assignLoop (order+1) (acc ++ [a])) st1
          | _ => .error .fuel
    | .assignment order => do
      -- `Parser.parse_assignment`
      let (v, st1) ← consume ts st (some .IDENT)
      if reservedList.contains v.value then .error .syn
      else do
        let (_, st2) ← consume ts st1 (some .ASSIGN)
        let (r, st3) ← parseStep ts fuel .expr st2
        match r with
        | .expr e => do
          let (_, st4) ← consume ts st3 (some .DOT)
          .ok (.assign ⟨v.value, v.pos, e, order⟩, st4)
        | _ => .error .fuel
    | .expr => do
      -- `Parser.parse_expr`
      let (r, st1) ← parseStep ts fuel .exprBase st
      match r with
      | .expr e => parseStep ts fuel (.exprTail e) st1
      | _ => .error .fuel
    | .exprBase =>
      -- `Parser.parse_expr_base`
      match curTok ts st with
      | none => .error .syn
      | some t =>
        if t.type = .LPAREN then do
          let (_, st1) ← consume ts st (some .LPAREN)
          let (r, st2) ← parseStep ts fuel .expr st1
          match r with
          | .expr e => do
            let (_, st3) ← consume ts st2 (some .RPAREN)
            .ok (.expr e, st3)
          | _ => .error .fuel
        else if t.type = .LBRACKET then do
          let (r, st1) ← parseStep ts fuel .block st
          match r with
          | .blk b => .ok (.expr (.blk b.params b.assigns), st1)
          | _ => .error .fuel
        else if t.type = .NUMBER then do
          let (tok, st1) ← consume ts st (some .NUMBER)
          .ok (.expr (.lit "Integer" tok.value tok.pos), st1)
        else if t.type = .STRING then do
          let (tok, st1) ← consume ts st (some .STRING)
          .ok (.expr (.lit "String" tok.value tok.pos), st1)
        else if t.type = .IDENT then do
          let (tok, st1) ← consume ts st (some .IDENT)
          if tok.value = "true" then .ok (.expr (.lit "True" "true" tok.pos), st1)
          else if tok.value = "false" then .ok (.expr (.lit "False" "false" tok.pos), st1)
          else if tok.value = "nil" then .ok (.expr (.lit "Nil" "nil" tok.pos), st1)
          else if headIsUpper tok.value then .ok (.expr (.lit "class" tok.value tok.pos), st1)
          else .ok (.expr (.var tok.value tok.pos), st1)
        else .error .syn
    | .exprTail base =>
      -- `Parser.parse_expr_tail`: loop while current is IDENT or COLON
      match curTok ts st with
      | some t =>
        if t.type = .IDENT then
          match ts.get? (st.pos + 1) with
          | some t2 =>
            if t2.type = .COLON then do
              let (r, st1) ← parseStep ts fuel (.sendTail base) st
              match r with
              | .expr e => parseStep ts fuel (.exprTail e) st1
              | _ => .error .fuel
            else do
              let (tok, st1) ← consume ts st (some .IDENT)
              parseStep ts fuel (.exprTail (.send tok.value base [] tok.pos)) st1
          | none => do
            let (tok, st1) ← consume ts st (some .IDENT)
            parseStep ts fuel (.exprTail (.send tok.value base [] tok.pos)) st1
        else if t.type = .COLON then do
          let (r, st1) ← parseStep ts fuel (.sendTail base) st
          match r with
          | .expr e => parseStep ts fuel (.exprTail e) st1
          | _ => .error .fuel
        else .ok (.expr base, st)
      | none => .ok (.expr base, st)
    | .sendTail base =>
      -- `Parser._parse_send_tail`, first selector component
      match curTok ts st with
      | none => .error .crash  -- `self.current_token.type` on None: AttributeError
      | some t =>
        if t.type = .IDENT then do
          let (identTok, st1) ← consume ts st (some .IDENT)
          match curTok ts st1 with
          | none => .error .syn
          | some tc =>
            if tc.type ≠ .COLON then .error .syn
            else if tc.pos ≠ identTok.pos + identTok.value.length then .error .syn
            else do
              let (_, st2) ← consume ts st1 (some .COLON)
              let (r, st3) ← parseStep ts fuel .exprBase st2
              match r with
              | .expr arg =>
                parseStep ts fuel (.sendLoop base (identTok.value ++ ":") [arg]) st3
              | _ => .error .fuel
        else
          if t.type ≠ .COLON then .error .syn
          else do
            let (_, st1) ← consume ts st (some .COLON)
            let (r, st2) ← parseStep ts fuel .exprBase st1
            match r with
            | .expr arg => parseStep ts fuel (.sendLoop base ":" [arg]) st2
            | _ => .error .fuel
    | .sendLoop base parts args =>
      -- subsequent-components loop of `_parse_send_tail`, then the final
      -- `Send(selector, base, args, base.pos)`
      if sendLoopCont ts st then do
        let (identTok, st1) ← consume ts st (some .IDENT)
        match curTok ts st1 with
        | none => .error .syn
        | some tc =>
          if tc.type ≠ .COLON then .error .syn
          else if tc.pos ≠ identTok.pos + identTok.value.length then .error .syn
          else do
            let (_, st2) ← consume ts st1 (some .COLON)
            let (r, st3) ← parseStep ts fuel .exprBase st2
            match r with
            | .expr arg =>
              parseStep ts fuel
                (.sendLoop base (parts ++ identTok.value ++ ":") (args ++ [arg])) st3
            | _ => .error .fuel
      else
        match exprPos? base with
        | none => .error .crash  -- `base.pos` on a Block: AttributeError
        | some bp => .ok (.expr (.send parts base args bp), st)

/-- Python `min(comment_tokens, key=lambda t: t.pos)` (first wins on ties). -/
def minByPos : List Token → Option Token
  | [] => none
  | t :: ts =>
    match minByPos ts with
    | none => some t
    | some u => if u.pos < t.pos then some u else some t

/-- Python `str.strip('"')`: remove every leading and trailing `'"'`. -/
def stripQuoteChars (l : List Char) : List Char :=
  ((l.dropWhile (· = '"')).reverse.dropWhile (· = '"')).reverse

/-- `Parser.parse`: extract the lexically first comment as the description,
drop all COMMENT tokens, then parse the class list from position 0. -/
def parseProgram (fuel : Nat) (ts : List Token) : Except PErr (Program × PSt) :=
  match parseStep (ts.filter fun t => t.type ≠ TokType.COMMENT) fuel .classList ⟨0, 0⟩ with
  | .ok (.classes cs, st) =>
    .ok (⟨cs, (minByPos (ts.filter fun t => t.type = TokType.COMMENT)).map
      (fun t => String.mk (stripQuoteChars t.value.data))⟩, st)
  | .ok _ => .error .fuel
  | .error e => .error e

end SOL25

namespace SOL25

/-! ## Built-in class tables (`builtin_parents`, `builtin_methods`) -/

def builtinParents : String → Option String
  | "Object" => none
  | "Nil" => some "Object"
  | "Integer" => some "Object"
  | "String" => some "Object"
  | "Block" => some "Object"
  | "True" => some "Object"
  | "False" => some "Object"
  | _ => none

def builtinMethods : String → List String
  | "Object" => ["new", "from:", "identicalTo:", "equalTo:", "asString",
                 "isNumber", "isString", "isBlock", "isNil"]
  | "Nil" => ["asString"]
  | "Integer" => ["equalTo:", "greaterThan:", "plus:", "minus:", "multiplyBy:",
                  "divBy:", "asString", "asInteger", "timesRepeat:"]
  | "String" => ["read", "print", "equalTo:", "asString", "asInteger",
                 "concatenateWith:", "startsWith:", "endsBefore:"]
  | "Block" => ["value", "value:", "value:value:"]
  | "True" => ["not", "and:", "or:", "ifTrue:ifFalse:"]
  | "False" => ["not", "and:", "or:", "ifTrue:ifFalse:"]
  | _ => []

/-- The keys of `builtin_methods` / the set `builtin_classes` in
`SemanticAnalyzer.analyze` (both consist of the same seven names). -/
def builtinClassNames : List String :=
  ["Object", "Nil", "Integer", "String", "Block", "True", "False"]

/-! ## Semantic analyzer (`class SemanticAnalyzer`)

`class_map` is an association list in program order (Python dict insertion
order); `dynamic_attrs` maps a class name to the list of attribute names added
so far (a Python `set`: only membership is ever consulted, so duplicates in
the list are harmless); an environment maps a name to `true` for `"param"`
and `false` for `"local"`. -/

abbrev ClassMap := List (String × ClassDef)
abbrev Attrs := List (String × List String)
abbrev Env := List (String × Bool)

def envLookup (env : Env) (n : String) : Option Bool :=
  match env.find? (fun p => p.1 = n) with
  | some p => some p.2
  | none => none

def attrsLookup (attrs : Attrs) (cname : String) : List String :=
  match attrs.find? (fun p => p.1 = cname) with
  | some p => p.2
  | none => []  -- unreachable in `analyze`: every program class is initialised

/-- `self.dynamic_attrs[cname].add(x)` (the key is always present when this
is called from `analyze`). -/
def attrsAdd (attrs : Attrs) (cname : String) (x : String) : Attrs :=
  attrs.map (fun p => if p.1 = cname then (p.1, p.2 ++ [x]) else p)

/-- `SemanticAnalyzer.lookup_builtin_method`: look the selector up in the
built-in table, walking `builtin_parents` upwards. -/
def lookupBuiltinMethod : Nat → String → String → Option Bool
  | 0, _, _ => none
  | fuel+1, cname, sel =>
    if (builtinMethods cname).contains sel then some true
    else
      match builtinParents cname with
      | some parent => lookupBuiltinMethod fuel parent sel
      | none => some false

/-- `SemanticAnalyzer.lookup_method`: for user-defined classes first check the
class's own methods, then recurse into the parent (user-defined or built-in).
`none` is fuel exhaustion (in `analyze` this is only called after the
circular-inheritance check, so enough fuel always exists). -/
def lookupMethod (cm : ClassMap) : Nat → String → String → Option Bool
  | 0, _, _ => none
  | fuel+1, cname, sel =>
    match cm.find? (fun p => p.1 = cname) with
    | some (_, cls) =>
      if cls.methods.any (fun m => m.selector = sel) then some true
      else
        match cm.find? (fun p => p.1 = cls.parent) with
        | some _ => lookupMethod cm fuel cls.parent sel
        | none => lookupBuiltinMethod (fuel+1) cls.parent sel
    | none => lookupBuiltinMethod (fuel+1) cname sel

/-! ### Dynamic-attribute collection (first traversal)

`collect_dynamic_attributes_expr` adds `selector[:-1]` for every `Send` whose
target is `Var("self")` and whose selector ends with `":"`, then recurses into
the target, the arguments, and (for block literals) the assignments of the
block.  `collect_dynamic_attributes` iterates over a block's assignments. -/

/-- Does this `Send` register a dynamic attribute
(`isinstance(expr.target, Var) and expr.target.name == "self" and
expr.selector.endswith(":")`)?  Non-`Send` nodes register nothing. -/
def registersAttr : Expr → Bool
  | .send sel (.var n _) _ _ => n == "self" && endsColon sel
  | _ => false

/-- The name registered by a registering `Send` (`expr.selector[:-1]`). -/
def registeredName : Expr → String
  | .send sel _ _ _ => strDropLast sel
  | _ => ""

/-- `collect_dynamic_attributes_expr`, operating on the attribute list of the
current class; `none` is fuel exhaustion. -/
def collectDyn : Nat → Expr → List String → Option (List String)
  | 0, _, _ => none
  | fuel+1, e, s =>
    match e with
    | .send _ target args _ =>
      match collectDyn fuel target
          (if registersAttr e then s ++ [registeredName e] else s) with
      | none => none
      | some s2 => args.foldlM (fun acc a => collectDyn fuel a acc) s2
    | .blk _ assigns =>
      -- `collect_dynamic_attributes`: recurse into each assignment's expression
      assigns.foldlM (fun acc a => collectDyn fuel a.expr acc) s
    | _ => some s

/-- `collect_dynamic_attributes` on a block. -/
def collectBlock (fuel : Nat) (b : Block) (s : List String) : Option (List String) :=
  b.assigns.foldlM (fun acc a => collectDyn fuel a.expr acc) s

/-- `collect_class_dynamic_attributes`: all methods of one class, starting
from the class's (empty) attribute set. -/
def collectClassAttrs (fuel : Nat) (cls : ClassDef) : Option (List String) :=
  cls.methods.foldlM (fun acc m => collectBlock fuel m.block acc) []

/-! ### Expression analysis (second traversal)

`analyze_expr` checks variables, class literals and sends; it recurses into a
send's target and arguments but has **no** case for `Block` expressions, which
therefore pass unexamined.  It threads the mutable `dynamic_attrs` through. -/

def analyzeExpr (cm : ClassMap) (g : List String) (cls : ClassDef) (env : Env) :
    Nat → Expr → Attrs → Except Nat Attrs
  | 0, _, _ => .error ERR_FUEL
  | fuel+1, e, attrs =>
    match e with
    | .var n _ =>
      if envLookup env n = none then
        if headIsUpper n then
          if g.contains n then .ok attrs else .error ERR_UNDEFINED_VAR
        else .error ERR_UNDEFINED_VAR
      else .ok attrs
    | .lit lc v _ =>
      if lc = "class" then
        if g.contains v = false && builtinClassNames.contains v = false then
          .error ERR_UNDEFINED_VAR
        else .ok attrs
      else .ok attrs
    | .blk _ _ => .ok attrs  -- no isinstance case matches: nothing is checked
    | .send sel target args _ => do
      if reservedList.contains sel then .error ERR_SYNTACTIC else do
      let attrs1 ← analyzeExpr cm g cls env fuel target attrs
      let attrs2 ← args.foldlM (fun acc a => analyzeExpr cm g cls env fuel a acc) attrs1
      -- special handling when the message is sent to 'self'
      let attrs3 ←
        match target with
        | .var "self" _ =>
          match cls.methods.find? (fun m => m.selector = sel) with
          | some m =>
            if m.block.params.length ≠ args.length then .error ERR_ARITY
            else .ok attrs2
          | none =>
            if endsColon sel then
              -- attribute setter: exactly one argument, then register
              if args.length ≠ 1 then .error ERR_ARITY
              else .ok (attrsAdd attrs2 cls.name (strDropLast sel))
            else
              -- attribute getter: zero arguments, attribute must be known
              if args.length ≠ 0 then .error ERR_ARITY
              else if (attrsLookup attrs2 cls.name).contains sel then .ok attrs2
              else .error ERR_UNDEFINED_VAR
        | _ => .ok attrs2
      -- target is a class literal
      match target with
      | .lit "class" cname _ =>
        match lookupMethod cm (cm.length + 8) cname sel with
        | some true => do
          -- target is a class-named variable (cannot be, for a literal)
          pure attrs3
        | some false => .error ERR_UNDEFINED_VAR
        | none => .error ERR_FUEL
      | .var vn _ =>
        if headIsUpper vn then
          match lookupMethod cm (cm.length + 8) vn sel with
          | some true => pure attrs3
          | some false => .error ERR_UNDEFINED_VAR
          | none => .error ERR_FUEL
        else pure attrs3
      | _ => pure attrs3

/-! ### Block analysis, class checks, and the `analyze` pipeline -/

/-- Duplicate-formal-parameter check of `analyze_block`. -/
def checkDupParams : List Param → List String → Except Nat Unit
  | [], _ => .ok ()
  | p :: ps, seen =>
    if seen.contains p.name then .error ERR_SEMANTIC_OTHER
    else checkDupParams ps (seen ++ [p.name])

/-- The assignment loop of `analyze_block`, threading the environment and
`dynamic_attrs`. -/
def analyzeAssigns (cm : ClassMap) (g : List String) (cls : ClassDef) (fuel : Nat) :
    List Assign → Env → Attrs → Except Nat Attrs
  | [], _, attrs => .ok attrs
  | a :: rest, env, attrs => do
    if envLookup env a.var = some true then .error ERR_VAR_COLLISION else do
    let attrs' ← analyzeExpr cm g cls env fuel a.expr attrs
    let env' := if envLookup env a.var = none then (a.var, false) :: env else env
    analyzeAssigns cm g cls fuel rest env' attrs'

/-- `SemanticAnalyzer.analyze_block`. -/
def analyzeBlock (cm : ClassMap) (g : List String) (cls : ClassDef) (fuel : Nat)
    (b : Block) (attrs : Attrs) : Except Nat Attrs := do
  checkDupParams b.params []
  let env : Env := ("self", true) :: b.params.map (fun p => (p.name, true))
  -- `collect_dynamic_attributes(block, current_class)` is run again here
  match collectBlock fuel b (attrsLookup attrs cls.name) with
  | none => .error ERR_FUEL
  | some s =>
    let attrs1 := attrs.map (fun p => if p.1 = cls.name then (p.1, s) else p)
    analyzeAssigns cm g cls fuel b.assigns env attrs1

/-- Duplicate-class check; returns the `class_map` (`seen`) in program order. -/
def checkDupClasses : List ClassDef → ClassMap → Except Nat ClassMap
  | [], seen => .ok seen
  | cls :: rest, seen =>
    if (seen.map Prod.fst).contains cls.name then .error ERR_SEMANTIC_OTHER
    else checkDupClasses rest (seen ++ [(cls.name, cls)])

/-- Duplicate-method check within one class. -/
def checkDupMethodsIn : List Method → List String → Except Nat Unit
  | [], _ => .ok ()
  | m :: rest, seen =>
    if seen.contains m.selector then .error ERR_SEMANTIC_OTHER
    else checkDupMethodsIn rest (seen ++ [m.selector])

def checkDupMethods : List ClassDef → Except Nat Unit
  | [] => .ok ()
  | cls :: rest => do
    checkDupMethodsIn cls.methods []
    checkDupMethods rest

/-- The `Main`/`run` scan: every `run` method of every class named `Main` must
have zero parameters (`ERR_ARITY` otherwise); `main_found` must end up true
(`ERR_MISSING_MAIN` otherwise). -/
def checkMainMethods : List Method → Bool → Except Nat Bool
  | [], found => .ok found
  | m :: rest, found =>
    if m.selector = "run" then
      if m.block.params.length ≠ 0 then .error ERR_ARITY
      else checkMainMethods rest true
    else checkMainMethods rest found

def checkMainClasses : List ClassDef → Bool → Except Nat Bool
  | [], found => .ok found
  | cls :: rest, found =>
    if cls.name = "Main" then do
      let found' ← checkMainMethods cls.methods found
      checkMainClasses rest found'
    else checkMainClasses rest found

def checkMain (classes : List ClassDef) : Except Nat Unit := do
  let found ← checkMainClasses classes false
  if found then .ok () else .error ERR_MISSING_MAIN

/-- Parent-resolution check. -/
def checkParents (g : List String) : List ClassDef → Except Nat Unit
  | [] => .ok ()
  | cls :: rest =>
    if cls.parent ≠ "Object" && g.contains cls.parent = false &&
        builtinClassNames.contains cls.parent = false then
      .error ERR_UNDEFINED_VAR
    else checkParents g rest

/-! ### Circular-inheritance check (`check_circular_inheritance`, `_dfs_check`)
`visited` maps a class name to 0 (not visited), 1 (visiting) or 2 (processed);
absent keys read as 0. -/

abbrev Visited := List (String × Nat)

def visitedGet (v : Visited) (n : String) : Nat :=
  match v.find? (fun p => p.1 = n) with
  | some p => p.2
  | none => 0

def visitedSet (v : Visited) (n : String) (s : Nat) : Visited :=
  if (v.map Prod.fst).contains n then
    v.map (fun p => if p.1 = n then (p.1, s) else p)
  else v ++ [(n, s)]

/-- `_dfs_check`; `none` is fuel exhaustion (enough fuel always exists for the
calls made by `checkCircular`). -/
def dfsCheck (cm : ClassMap) : Nat → String → Visited → Option (Bool × Visited)
  | 0, _, _ => none
  | fuel+1, cname, v =>
    let v1 := visitedSet v cname 1
    match cm.find? (fun p => p.1 = cname) with
    | none => some (false, visitedSet v1 cname 2)  -- unreachable from checkCircular
    | some (_, cls) =>
      let parent := cls.parent
      match cm.find? (fun p => p.1 = parent) with
      | some _ =>
        match visitedGet v1 parent with
        | 1 => some (true, v1)
        | 0 =>
          match dfsCheck cm fuel parent v1 with
          | none => none
          | some (true, v2) => some (true, v2)
          | some (false, v2) => some (false, visitedSet v2 cname 2)
        | _ => some (false, visitedSet v1 cname 2)
      | none => some (false, visitedSet v1 cname 2)

/-- `check_circular_inheritance`: DFS from every not-yet-visited class, in
`class_map` (= program) order. -/
def checkCircularLoop (cm : ClassMap) (fuel : Nat) : List String → Visited → Except Nat Unit
  | [], _ => .ok ()
  | n :: rest, v =>
    if visitedGet v n = 0 then
      match dfsCheck cm fuel n v with
      | none => .error ERR_FUEL
      | some (true, _) => .error ERR_SEMANTIC_OTHER
      | some (false, v') => checkCircularLoop cm fuel rest v'
    else checkCircularLoop cm fuel rest v

def checkCircular (cm : ClassMap) (fuel : Nat) : Except Nat Unit :=
  checkCircularLoop cm fuel (cm.map Prod.fst) []

/-- The preliminary pass: initialise `dynamic_attrs[c] = set()` for every
class, then collect each class's dynamic attributes from its own methods. -/
def collectPhase (fuel : Nat) : List ClassDef → Option Attrs
  | [] => some []
  | cls :: rest =>
    match collectClassAttrs fuel cls with
    | none => none
    | some s =>
      match collectPhase fuel rest with
      | none => none
      | some m => some ((cls.name, s) :: m)

/-- The final pass of `analyze`: `analyze_block` for every method of every
class, in program order, threading `dynamic_attrs`. -/
def analyzeMethods (cm : ClassMap) (g : List String) (cls : ClassDef) (fuel : Nat) :
    List Method → Attrs → Except Nat Attrs
  | [], attrs => .ok attrs
  | m :: rest, attrs => do
    let attrs' ← analyzeBlock cm g cls fuel m.block attrs
    analyzeMethods cm g cls fuel rest attrs'

def analyzeClasses (cm : ClassMap) (g : List String) (fuel : Nat) :
    List ClassDef → Attrs → Except Nat Attrs
  | [], attrs => .ok attrs
  | cls :: rest, attrs => do
    let attrs' ← analyzeMethods cm g cls fuel cls.methods attrs
    analyzeClasses cm g fuel rest attrs'

/-- `SemanticAnalyzer.analyze`, in the exact order of the Python method:
duplicate classes, duplicate methods, `Main`/`run` presence and arity,
parent resolution, circular inheritance, dynamic-attribute collection,
block analysis. -/
def analyzeProgram (fuel : Nat) (prog : Program) : Except Nat Unit := do
  let cm ← checkDupClasses prog.classes []
  checkDupMethods prog.classes
  checkMain prog.classes
  let g := cm.map Prod.fst
  checkParents g prog.classes
  checkCircular cm (cm.length + 1)
  match collectPhase fuel prog.classes with
  | none => .error ERR_FUEL
  | some attrs => do
    let _ ← analyzeClasses cm g fuel prog.classes attrs
    .ok ()

end SOL25

namespace SOL25

/-! ## XML generation (`generate_xml`, `generate_xml_block`,
`generate_xml_expr`, `replace_in_literals`)

Elements mirror `xml.etree.ElementTree`: attributes in insertion order, no
text content, `'<tag k="v" />'` for childless elements.  `_escape_attrib`
replaces `&` first and then `< > " \r \n \t`, which is equivalent to the
character-wise map `escapeAttribChar`. -/

inductive XElem where
  | node (tag : String) (attrs : List (String × String)) (children : List XElem)

def escapeAttribChar (c : Char) : List Char :=
  if c = '&' then "&amp;".data
  else if c = '<' then "&lt;".data
  else if c = '>' then "&gt;".data
  else if c = '"' then "&quot;".data
  else if c = '\x0d' then "&#13;".data
  else if c = '\n' then "&#10;".data
  else if c = '\t' then "&#09;".data
  else [c]

def escapeAttrib : List Char → List Char
  | [] => []
  | c :: cs => escapeAttribChar c ++ escapeAttrib cs

/-- Decimal digits of a natural number (fuelled; `natStr` supplies enough). -/
def natStrAux : Nat → Nat → List Char
  | 0, _ => []
  | fuel+1, n =>
    if n < 10 then [Char.ofNat (48 + n)]
    else natStrAux fuel (n / 10) ++ [Char.ofNat (48 + n % 10)]

def natStr (n : Nat) : String :=
  String.mk (natStrAux (n + 1) n)

/-- Python `sorted(l, key=...)` for a `Nat` key: stable insertion sort. -/
def insertByKey {α : Type} (key : α → Nat) (x : α) : List α → List α
  | [] => [x]
  | y :: ys => if key y ≤ key x then y :: insertByKey key x ys else x :: y :: ys

def sortByKey {α : Type} (key : α → Nat) : List α → List α
  | [] => []
  | x :: xs => insertByKey key x (sortByKey key xs)

/-- `value.replace("'", "&apos;").replace("\\", "\\\\")` — the preprocessing
of a String literal's value in `generate_xml_expr`. -/
def xmlStringValue (v : List Char) : List Char :=
  replaceSeq ['\\'] ['\\', '\\'] (replaceSeq ['\''] "&apos;".data v)

/-- `generate_xml_expr` (the element returned for one expression) together
with `generate_xml_block` inlined in the `blk` case: a `block` element with
`arity`, parameters sorted by order, and `assign` elements sorted by order. -/
def genExpr : Nat → Expr → Option XElem
  | 0, _ => none
  | fuel+1, e =>
    match e with
    | .lit lc v _ =>
      let value := if lc = "String" then String.mk (xmlStringValue v.data) else v
      some (.node "literal" [("class", lc), ("value", value)] [])
    | .var n _ => some (.node "var" [("name", n)] [])
    | .blk ps as =>
      let paramElems := (sortByKey Param.order ps).map
        (fun p => XElem.node "parameter" [("name", p.name), ("order", natStr p.order)] [])
      match (sortByKey (fun (a : Assign) => a.order) as).mapM
          (fun a =>
            match genExpr fuel a.expr with
            | none => none
            | some eElem =>
              some (XElem.node "assign" [("order", natStr a.order)]
                [.node "var" [("name", a.var)] [], .node "expr" [] [eElem]])) with
      | none => none
      | some assignElems =>
        some (.node "block" [("arity", natStr ps.length)] (paramElems ++ assignElems))
    | .send sel t args _ =>
      match genExpr fuel t with
      | none => none
      | some tElem =>
        match (args.enum).mapM
            (fun ia =>
              match genExpr fuel ia.2 with
              | none => none
              | some aElem =>
                some (XElem.node "arg" [("order", natStr (ia.1 + 1))]
                  [.node "expr" [] [aElem]])) with
        | none => none
        | some argElems =>
          some (.node "send" [("selector", sel)]
            (XElem.node "expr" [] [tElem] :: argElems))

/-- `ET.tostring`: `<tag k₁="v₁" … />` or `<tag …>children</tag>`. -/
def serializeElem : Nat → XElem → Option (List Char)
  | 0, _ => none
  | fuel+1, .node tag attrs children =>
    let attrsTxt := attrs.foldl
      (fun acc kv => acc ++ (' ' :: kv.1.data) ++ ('=' :: '"' :: escapeAttrib kv.2.data) ++ ['"'])
      []
    match children with
    | [] => some ('<' :: tag.data ++ attrsTxt ++ " />".data)
    | _ =>
      match children.foldlM
          (fun acc ch =>
            match serializeElem fuel ch with
            | none => none
            | some s => some (acc ++ s)) [] with
      | none => none
      | some inner =>
        some ('<' :: tag.data ++ attrsTxt ++ ['>'] ++ inner ++ "</".data ++ tag.data ++ ['>'])

/-! ### `replace_in_literals`: the post-pass rewriting only the `value="…"`
attribute of `<literal …>` tags, via the regex
`(<literal\b[^>]*\svalue=")([^"]*)(")`.  `re.sub` scans left-to-right; at an
occurrence of `<literal` (with a word boundary) the greedy `[^>]*` selects the
*last* `\s value="` spot inside the run of non-`'>'` characters, the value is
everything up to the next `'"'`, and scanning resumes after that quote. -/

def isWordChar (c : Char) : Bool :=
  isAsciiLetter c || isAsciiDigit c || c = '_'

/-- Is `<literal` followed by a word boundary at the head of `l`? -/
def litTagHere (l : List Char) : Bool :=
  isPrefixL "<literal".data l &&
  (match l.drop 8 with
   | d :: _ => !isWordChar d
   | [] => true)

/-- Last index `j` (within the maximal non-`'>'` run `afterTag.takeWhile`)
such that `afterTag[j]` is whitespace and `value="` follows immediately. -/
def lastValueSpot (afterTag : List Char) : Option Nat :=
  let run := afterTag.takeWhile (· ≠ '>')
  let idxs := (List.range run.length).filter
    (fun j => (match afterTag.get? j with
      | some c => isPySpace c
      | none => false) && isPrefixL "value=\"".data (afterTag.drop (j + 1)))
  idxs.getLast?

/-- Attempt the `<literal…value="…"` match at the head of `l`; on success
return the matched opening part (group 1), the value (group 2), and the
remaining input after the closing quote. -/
def literalMatch (l : List Char) : Option (List Char × List Char × List Char) :=
  if litTagHere l then
    let afterTag := l.drop 8
    match lastValueSpot afterTag with
    | none => none
    | some j =>
      let valueStart := afterTag.drop (j + 8)
      let value := valueStart.takeWhile (· ≠ '"')
      match valueStart.drop value.length with
      | '"' :: after => some (l.take (16 + j), value, after)
      | _ => none
  else none

/-- The two replacements applied to a matched value:
`value.replace("&amp;apos;", "\\&apos;").replace("&#10;", "\\n")`. -/
def rilTransform (v : List Char) : List Char :=
  replaceSeq "&#10;".data "\\n".data
    (replaceSeq "&amp;apos;".data "\\&apos;".data v)

/-- `replace_in_literals` (fuelled scan of the whole document). -/
def replaceInLiterals : Nat → List Char → Option (List Char)
  | 0, _ => none
  | fuel+1, s =>
    match s with
    | [] => some []
    | c :: rest =>
      match literalMatch (c :: rest) with
      | some (g1, value, after) =>
        (replaceInLiterals fuel after).map
          (fun tailOut => g1 ++ rilTransform value ++ ['"'] ++ tailOut)
      | none =>
        (replaceInLiterals fuel rest).map (fun tailOut => c :: tailOut)

/-- `generate_xml`: the serialized root prefixed by the declaration that
`ET.tostring(..., encoding="utf-8")` emits, run through
`replace_in_literals`, and prefixed by the hand-written declaration. -/
def generateXml (fuel : Nat) (prog : Program) : Option (List Char) :=
  let descAttrs : List (String × String) :=
    match prog.description with
    | some d =>
      -- Python truthiness: an empty description adds no attribute
      if d.data.isEmpty then []
      else [("description", String.mk (replaceSeq [' '] "&nbsp;".data d.data))]
    | none => []
  match prog.classes.mapM
      (fun cls =>
        match cls.methods.mapM
            (fun m =>
              match genExpr fuel (Block.toExpr m.block) with
              | none => none
              | some bElem =>
                some (XElem.node "method" [("selector", m.selector)] [bElem])) with
        | none => none
        | some methodElems =>
          some (XElem.node "class" [("name", cls.name), ("parent", cls.parent)]
            methodElems)) with
  | none => none
  | some classElems =>
    let root := XElem.node "program" (("language", "SOL25") :: descAttrs) classElems
    match serializeElem fuel root with
    | none => none
    | some body =>
      let xmlStr := "<?xml version='1.0' encoding='utf-8'?>\n".data ++ body
      match replaceInLiterals (xmlStr.length + 1) xmlStr with
      | none => none
      | some post =>
        some ("<?xml version=\"1.0\" encoding=\"UTF-8\"?>\n".data ++ post)

/-! ## The whole pipeline (`main`): lex → parse → analyze → XML, with the
final `xml_output.replace("&amp;nbsp;", " ")` of `main`.  Error codes are the
process exit codes; 98/97 are the fuel/crash sentinels of the embedding. -/

def pipeline (fuel : Nat) (src : String) : Except Nat String :=
  match tokenize src with
  | .error e => .error e
  | .ok ts =>
    match parseProgram fuel ts with
    | .error .syn => .error ERR_SYNTACTIC
    | .error .fuel => .error ERR_FUEL
    | .error .crash => .error ERR_CRASH
    | .ok (prog, _) =>
      match analyzeProgram fuel prog with
      | .error e => .error e
      | .ok () =>
        match generateXml fuel prog with
        | none => .error ERR_FUEL
        | some xml => .ok (String.mk (replaceSeq "&amp;nbsp;".data " ".data xml))

end SOL25

namespace SOL25

/-! ## Occurrence predicates over the AST -/

/-- `SubExpr e root`: the expression node `e` occurs somewhere inside `root`
(as `root` itself, inside a send's target or arguments, or inside an
assignment of a block literal). -/
inductive SubExpr : Expr → Expr → Prop where
  | refl (e : Expr) : SubExpr e e
  | target {e t : Expr} (sel : String) (args : List Expr) (p : Nat) :
      SubExpr e t → SubExpr e (.send sel t args p)
  | arg {e a : Expr} (sel : String) (t : Expr) (args : List Expr) (p : Nat) :
      a ∈ args → SubExpr e a → SubExpr e (.send sel t args p)
  | blk {e : Expr} (ps : List Param) (xs : List Assign) (a : Assign) :
      a ∈ xs → SubExpr e a.expr → SubExpr e (.blk ps xs)

/-- The per-node well-formedness that the parser guarantees: for a send, the
argument count equals the selector's colon count, and a send with a keyword
selector carries its target's position; for a block, no assignment target is
a reserved identifier. -/
def NodeOk : Expr → Prop
  | .send sel t args p =>
    countColons sel = args.length ∧ (0 < countColons sel → exprPos? t = some p)
  | .blk _ xs => ∀ a ∈ xs, a.var ∉ reservedList
  | _ => True

/-- Every node occurring in `e` satisfies `NodeOk`. -/
def GoodE (e : Expr) : Prop := ∀ e', SubExpr e' e → NodeOk e'

def GoodM (m : Method) : Prop := GoodE (Block.toExpr m.block)

def GoodC (c : ClassDef) : Prop := ∀ m ∈ c.methods, GoodM m

def GoodProg (p : Program) : Prop := ∀ c ∈ p.classes, GoodC c

theorem goodE_lit {lc v : String} {p : Nat} : GoodE (.lit lc v p) := by
  intro e' h
  cases h
  trivial

theorem goodE_var {n : String} {p : Nat} : GoodE (.var n p) := by
  intro e' h
  cases h
  trivial

theorem goodE_send {sel : String} {t : Expr} {args : List Expr} {p : Nat}
    (ht : GoodE t) (ha : ∀ a ∈ args, GoodE a)
    (h1 : countColons sel = args.length)
    (h2 : 0 < countColons sel → exprPos? t = some p) :
    GoodE (.send sel t args p) := by
  intro e' h
  cases h with
  | refl => exact ⟨h1, h2⟩
  | target _ _ _ hsub => exact ht _ hsub
  | arg _ _ _ _ hmem hsub => exact ha _ hmem _ hsub

theorem goodE_blk {ps : List Param} {xs : List Assign}
    (ha : ∀ a ∈ xs, GoodE a.expr)
    (hv : ∀ a ∈ xs, a.var ∉ reservedList) :
    GoodE (.blk ps xs) := by
  intro e' h
  cases h with
  | refl => exact hv
  | blk _ _ a hmem hsub => exact ha a hmem _ hsub

/-! ## Parser invariants: pre/post conditions of each `parseStep` request -/

def ReqOk : PReq → Prop
  | .exprTail base => GoodE base
  | .sendTail base => GoodE base
  | .sendLoop base parts args =>
    GoodE base ∧ (∀ a ∈ args, GoodE a) ∧ countColons parts = args.length ∧
      0 < countColons parts
  | .methodList acc => ∀ m ∈ acc, GoodM m
  | .assignLoop _ acc => ∀ a ∈ acc, a.var ∉ reservedList ∧ GoodE a.expr
  | _ => True

def ResOk : PRes → Prop
  | .classes cs => ∀ c ∈ cs, GoodC c
  | .klass c => GoodC c
  | .methods ms => ∀ m ∈ ms, GoodM m
  | .method m => GoodM m
  | .sel _ => True
  | .blk b => GoodE (Block.toExpr b)
  | .params _ => True
  | .assigns xs => ∀ a ∈ xs, a.var ∉ reservedList ∧ GoodE a.expr
  | .assign a => a.var ∉ reservedList ∧ GoodE a.expr
  | .expr e => GoodE e

end SOL25

namespace SOL25

/-! ## Supporting lemmas -/

theorem strContains_iff {l : List String} {s : String} :
    l.contains s = true ↔ s ∈ l :=
  List.elem_iff

theorem countColons_append (a b : String) :
    countColons (a ++ b) = countColons a + countColons b := by
  simp [countColons, String.data_append, List.countP_append]

theorem countColons_colon : countColons ":" = 1 := rfl

theorem countColons_of_not_hasColon {s : String} (h : hasColon s = false) :
    countColons s = 0 := by
  simp only [hasColon] at h
  rw [countColons, List.countP_eq_zero]
  intro a ha
  rw [List.any_eq_false] at h
  simpa using h a ha

/-- A token obtained by `consume` with an expected type belongs to the token
list and has that type. -/
theorem consume_ok {ts : List Token} {st : PSt} {ty : TokType}
    {v : Token × PSt} (h : consume ts st (some ty) = .ok v) :
    v.1 ∈ ts ∧ v.1.type = ty := by
  unfold consume at h
  cases hg : ts.get? st.pos with
  | none => rw [hg] at h; exact Except.noConfusion h
  | some t =>
    rw [hg] at h
    simp only at h
    split at h
    · injection h with h1
      subst h1
      exact ⟨List.get?_mem hg, by assumption⟩
    · exact Except.noConfusion h

end SOL25
namespace SOL25

theorem parseStep_inv :
    ∀ (fuel : Nat) (ts : List Token),
      (∀ t ∈ ts, t.type = TokType.IDENT → hasColon t.value = false) →
      ∀ (req : PReq) (st : PSt) (res : PRes) (st' : PSt),
      parseStep ts fuel req st = .ok (res, st') → ReqOk req → ResOk res := by
  intro fuel
  induction fuel with
  | zero => intro ts _ req st res st' h _; simp [parseStep] at h
  | succ fuel ih =>
    intro ts hts req st res st' h hreq
    cases req
    case classList =>
      simp only [parseStep, bind, Except.bind] at h
      iterate 14 (all_goals try split at h)
      all_goals (try exact Except.noConfusion h)
      case _ =>
        injection h with h1
        injection h1 with h2 h3
        subst h2
        intro c hc
        exact absurd hc (List.not_mem_nil c)
      case _ =>
        rename_i xo t hcur x1 v1 hk r1 c hkc x2 v2 hcl r2 cs hcs
        injection h with h1
        injection h1 with h2 h3
        subst h2
        have hk' := ih ts hts _ _ _ _ hk trivial
        rw [hkc] at hk'
        have hcl' := ih ts hts _ _ _ _ hcl trivial
        rw [hcs] at hcl'
        intro cc hcc
        rcases List.mem_cons.mp hcc with rfl | hmem
        · exact hk'
        · exact hcl' cc hmem
    case klass =>
      simp only [parseStep, bind, Except.bind] at h
      iterate 14 (all_goals try split at h)
      all_goals (try exact Except.noConfusion h)
      case _ =>
        rename_i x1 v1 h1 hne x2 v2 h2 hok2 x3 v3 h3 x4 v4 h4 hok4 x5 v5 h5 x6 v6 h6 r ms hms x7 v7 h7
        injection h with ha
        injection ha with hb hc
        subst hb
        have hms' := ih ts hts _ _ _ _ h6 (fun m hm => absurd hm (List.not_mem_nil m))
        rw [hms] at hms'
        exact hms'
    case methodList =>
      simp only [parseStep, bind, Except.bind] at h
      iterate 14 (all_goals try split at h)
      all_goals (try exact Except.noConfusion h)
      case _ =>
        -- current token none: return acc
        injection h with h1
        injection h1 with h2 h3
        subst h2
        exact hreq
      case _ =>
        -- RBRACE: return acc
        injection h with h1
        injection h1 with h2 h3
        subst h2
        exact hreq
      case _ =>
        -- tail call with acc ++ [m]
        rename_i xo t hcur hrb x1 v1 hm r m hmm
        refine ih ts hts _ _ _ _ h ?_
        intro m' hm'
        rcases List.mem_append.mp hm' with hmem | hone
        · exact hreq m' hmem
        · have hm2 := ih ts hts _ _ _ _ hm trivial
          rw [hmm] at hm2
          rcases List.mem_singleton.mp hone with rfl
          exact hm2
    case method =>
      simp only [parseStep, bind, Except.bind] at h
      iterate 14 (all_goals try split at h)
      all_goals (try exact Except.noConfusion h)
      case _ =>
        rename_i x1 v1 hs r1 s hsel x2 v2 hb r2 b hblk
        injection h with h1
        injection h1 with h2 h3
        subst h2
        have hb' := ih ts hts _ _ _ _ hb trivial
        rw [hblk] at hb'
        exact hb'
    case selector =>
      simp only [parseStep, bind, Except.bind] at h
      iterate 14 (all_goals try split at h)
      all_goals (try exact Except.noConfusion h)
      all_goals exact ih ts hts _ _ _ _ h trivial
    case selLoop =>
      simp only [parseStep, bind, Except.bind] at h
      iterate 14 (all_goals try split at h)
      all_goals (try exact Except.noConfusion h)
      all_goals
        first
        | exact ih ts hts _ _ _ _ h trivial
        | (injection h with h1; injection h1 with h2 h3; subst h2; trivial)
    case block =>
      simp only [parseStep, bind, Except.bind] at h
      iterate 14 (all_goals try split at h)
      all_goals (try exact Except.noConfusion h)
      case _ =>
        rename_i x1 v1 hlb xo t hcur hp x2 v2 hpipe x3 v3 ha r xs hxs x4 v4 hrb
        injection h with h1
        injection h1 with h2 h3
        subst h2
        have hx := ih ts hts _ _ _ _ ha (fun a haa => absurd haa (List.not_mem_nil a))
        rw [hxs] at hx
        exact goodE_blk (fun a hm => (hx a hm).2) (fun a hm => (hx a hm).1)
      case _ =>
        rename_i x1 v1 hlb xo t hcur hp hcol x2 v2 hpl rp ps hps x3 v3 ha r xs hxs x4 v4 hrb
        injection h with h1
        injection h1 with h2 h3
        subst h2
        have hx := ih ts hts _ _ _ _ ha (fun a haa => absurd haa (List.not_mem_nil a))
        rw [hxs] at hx
        exact goodE_blk (fun a hm => (hx a hm).2) (fun a hm => (hx a hm).1)
    case paramLoop =>
      simp only [parseStep, bind, Except.bind] at h
      iterate 14 (all_goals try split at h)
      all_goals (try exact Except.noConfusion h)
      all_goals
        first
        | exact ih ts hts _ _ _ _ h trivial
        | (injection h with h1; injection h1 with h2 h3; subst h2; trivial)
    case assignLoop =>
      simp only [parseStep, bind, Except.bind] at h
      iterate 14 (all_goals try split at h)
      all_goals (try exact Except.noConfusion h)
      case _ =>
        injection h with h1
        injection h1 with h2 h3
        subst h2
        exact hreq
      case _ =>
        injection h with h1
        injection h1 with h2 h3
        subst h2
        exact hreq
      case _ =>
        rename_i xo t hcur hrb x1 v1 hasg r a haa
        refine ih ts hts _ _ _ _ h ?_
        intro a2 ha2
        rcases List.mem_append.mp ha2 with hmem | hone
        · exact hreq a2 hmem
        · have ha' := ih ts hts _ _ _ _ hasg trivial
          rw [haa] at ha'
          rcases List.mem_singleton.mp hone with rfl
          exact ha'
    case assignment =>
      simp only [parseStep, bind, Except.bind] at h
      iterate 14 (all_goals try split at h)
      all_goals (try exact Except.noConfusion h)
      case _ =>
        rename_i x1 v1 hid hnres x2 v2 hasn x3 v3 hexp r e hee x4 v4 hdot
        injection h with h1
        injection h1 with h2 h3
        subst h2
        refine ⟨fun hmem => hnres (strContains_iff.mpr hmem), ?_⟩
        have he := ih ts hts _ _ _ _ hexp trivial
        rw [hee] at he
        exact he
    case expr =>
      simp only [parseStep, bind, Except.bind] at h
      iterate 14 (all_goals try split at h)
      all_goals (try exact Except.noConfusion h)
      case _ =>
        rename_i x1 v1 hb r e hbe
        refine ih ts hts _ _ _ _ h ?_
        have hb' := ih ts hts _ _ _ _ hb trivial
        rw [hbe] at hb'
        exact hb'
    case exprBase =>
      simp only [parseStep, bind, Except.bind] at h
      iterate 14 (all_goals try split at h)
      all_goals (try exact Except.noConfusion h)
      all_goals injection h with h1
      all_goals injection h1 with h2 h3
      all_goals subst h2
      all_goals (try exact goodE_lit)
      all_goals (try exact goodE_var)
      case _ =>
        -- parenthesized expression
        rename_i xo t hcur hlp x1 v1 hlpc x2 v2 hexp r e hee x3 v3 hrp
        have he := ih ts hts _ _ _ _ hexp trivial
        rw [hee] at he
        exact he
      case _ =>
        -- block literal
        rename_i xo t hcur hlp hlb x1 v1 hblk r b hbb
        have hb' := ih ts hts _ _ _ _ hblk trivial
        rw [hbb] at hb'
        exact hb'
    case exprTail =>
      simp only [parseStep, bind, Except.bind] at h
      iterate 14 (all_goals try split at h)
      all_goals (try exact Except.noConfusion h)
      case _ =>
        -- IDENT with following COLON: keyword send then continue
        rename_i xo t hcur hid xn t2 hnext hcol x1 v1 hst r e hse
        refine ih ts hts _ _ _ _ h ?_
        have he := ih ts hts _ _ _ _ hst hreq
        rw [hse] at he
        exact he
      case _ =>
        -- IDENT not followed by COLON: unary send
        rename_i xo t hcur hid xn t2 hnext hcol x1 v1 hcons
        refine ih ts hts _ _ _ _ h ?_
        obtain ⟨hmem, hty⟩ := consume_ok hcons
        have hnc := countColons_of_not_hasColon (hts _ hmem hty)
        refine goodE_send hreq (fun a ha => absurd ha (List.not_mem_nil a)) (by simpa using hnc) ?_
        intro hlt
        rw [hnc] at hlt
        exact absurd hlt (Nat.lt_irrefl 0)
      case _ =>
        -- IDENT at end of stream: unary send
        rename_i xo t hcur hid xn hnext x1 v1 hcons
        refine ih ts hts _ _ _ _ h ?_
        obtain ⟨hmem, hty⟩ := consume_ok hcons
        have hnc := countColons_of_not_hasColon (hts _ hmem hty)
        refine goodE_send hreq (fun a ha => absurd ha (List.not_mem_nil a)) (by simpa using hnc) ?_
        intro hlt
        rw [hnc] at hlt
        exact absurd hlt (Nat.lt_irrefl 0)
      case _ =>
        -- COLON: keyword send then continue
        rename_i xo t hcur hid hcol x1 v1 hst r e hse
        refine ih ts hts _ _ _ _ h ?_
        have he := ih ts hts _ _ _ _ hst hreq
        rw [hse] at he
        exact he
      all_goals injection h with h1
      all_goals injection h1 with h2 h3
      all_goals subst h2
      all_goals exact hreq
    case sendTail =>
      simp only [parseStep, bind, Except.bind] at h
      iterate 14 (all_goals try split at h)
      all_goals (try exact Except.noConfusion h)
      case _ =>
        -- IDENT first component
        rename_i xo t hcur hid x1 v1 hident xc tc hcurc hcol hadj x2 v2 hcolc x3 v3 hbase r arg harg
        refine ih ts hts _ _ _ _ h ?_
        obtain ⟨hmem, hty⟩ := consume_ok hident
        have hnc := countColons_of_not_hasColon (hts _ hmem hty)
        have harg' := ih ts hts _ _ _ _ hbase trivial
        rw [harg] at harg'
        refine ⟨hreq, ?_, ?_, ?_⟩
        · intro a ha
          rcases List.mem_singleton.mp ha with rfl
          exact harg'
        · rw [countColons_append, hnc, countColons_colon]
          rfl
        · rw [countColons_append, hnc, countColons_colon]
          exact Nat.zero_lt_one
      case _ =>
        -- bare COLON first component
        rename_i xo t hcur hid hcol x1 v1 hcolc x2 v2 hbase r arg harg
        refine ih ts hts _ _ _ _ h ?_
        have harg' := ih ts hts _ _ _ _ hbase trivial
        rw [harg] at harg'
        refine ⟨hreq, ?_, ?_, ?_⟩
        · intro a ha
          rcases List.mem_singleton.mp ha with rfl
          exact harg'
        · rw [countColons_colon]
          rfl
        · rw [countColons_colon]
          exact Nat.zero_lt_one
    case sendLoop =>
      simp only [parseStep, bind, Except.bind] at h
      iterate 14 (all_goals try split at h)
      all_goals (try exact Except.noConfusion h)
      case _ =>
        -- loop iteration
        rename_i hgo x1 v1 hident xc tc hcurc hcol hadj x2 v2 hcolc x3 v3 hbase r arg harg
        obtain ⟨hgb, hga, hcnt, hpos⟩ := hreq
        refine ih ts hts _ _ _ _ h ?_
        obtain ⟨hmem, hty⟩ := consume_ok hident
        have hnc := countColons_of_not_hasColon (hts _ hmem hty)
        have harg' := ih ts hts _ _ _ _ hbase trivial
        rw [harg] at harg'
        refine ⟨hgb, ?_, ?_, ?_⟩
        · intro a ha
          rcases List.mem_append.mp ha with hmem2 | hone
          · exact hga a hmem2
          · rcases List.mem_singleton.mp hone with rfl
            exact harg'
        · rw [countColons_append, countColons_append, hnc, countColons_colon,
            List.length_append, List.length_singleton, hcnt]
        · rw [countColons_append, countColons_append, hnc, countColons_colon]
          omega
      case _ =>
        -- loop exit: build the Send from base.pos
        rename_i hgo xp bp hbp
        obtain ⟨hgb, hga, hcnt, hpos⟩ := hreq
        injection h with h1
        injection h1 with h2 h3
        subst h2
        exact goodE_send hgb hga hcnt (fun _ => hbp)

end SOL25
namespace SOL25

theorem scanDelim_sublist (d : Char) :
    ∀ (n : Nat) (l : List Char), l.length ≤ n → ∀ content rest,
      scanDelim d l = some (content, rest) → List.Sublist rest l := by
  intro n
  induction n with
  | zero =>
    intro l hl content rest h
    rcases l with _ | ⟨c, cs⟩
    · exact Option.noConfusion h
    · exact absurd hl (by simp)
  | succ n ihn =>
    intro l hl content rest h
    rcases l with _ | ⟨c, cs⟩
    · exact Option.noConfusion h
    · unfold scanDelim at h
      iterate 6 (all_goals try split at h)
      all_goals (try exact Option.noConfusion h)
      case _ =>
        injection h with h1
        injection h1 with h2 h3
        subst h3
        exact List.sublist_cons_self c cs
      case _ =>
        rename_i hne hbs e cs' xop content' rest' heq
        injection h with h1
        injection h1 with h2 h3
        subst h3
        have hs := ihn cs' (by simp at hl; omega) _ _ heq
        exact hs.trans ((List.sublist_cons_self e cs').trans
          (List.sublist_cons_self c (e :: cs')))
      case _ =>
        rename_i hne hbs xop content' rest' heq
        injection h with h1
        injection h1 with h2 h3
        subst h3
        have hs := ihn cs (by simp at hl; omega) _ _ heq
        exact hs.trans (List.sublist_cons_self c cs)

end SOL25

namespace SOL25

/-- What one lexer step guarantees: an emitted token that is not a comment or
string reproduces exactly the consumed characters; an `IDENT` token's value is
colon-free; the remaining input is a sublist of the input; a skip step only
happens on whitespace. -/
def LexSpecTok (c : Char) (cs : List Char) (t : Token) (rest : List Char) : Prop :=
  (t.type = TokType.IDENT → hasColon t.value = false) ∧
  (t.type ≠ TokType.COMMENT → t.type ≠ TokType.STRING →
    t.value.data ++ rest = c :: cs) ∧
  List.Sublist rest (c :: cs)

def LexSpec (c : Char) (cs : List Char) : LexAction → Prop
  | .tok t rest _ => LexSpecTok c cs t rest
  | .skip _ _ => isPySpace c = true
  | .err _ => True

theorem lexStep_spec (c : Char) (cs : List Char) (pos : Nat) :
    LexSpec c cs (lexStep c cs pos) := by
  delta lexStep
  by_cases h1 : isPySpace c = true
  · rw [if_pos h1]; exact h1
  · rw [if_neg h1]
    by_cases h2 : c = '"'
    · rw [if_pos h2]
      cases hsd : scanDelim '"' cs with
      | none => trivial
      | some pr =>
        obtain ⟨content, rest⟩ := pr
        refine ⟨fun hty => TokType.noConfusion hty, fun hne _ => absurd rfl hne, ?_⟩
        exact (scanDelim_sublist '"' cs.length cs le_rfl _ _ hsd).trans
          (List.sublist_cons_self c cs)
    · rw [if_neg h2]
      by_cases h3 : (decide (c = ':') && headIs '=' cs) = true
      · rw [if_pos h3]
        rw [Bool.and_eq_true, decide_eq_true_eq] at h3
        obtain ⟨hc, hh⟩ := h3
        subst hc
        rcases cs with _ | ⟨d, cs'⟩
        · simp [headIs] at hh
        · simp only [headIs, decide_eq_true_eq] at hh
          subst hh
          exact ⟨fun hty => TokType.noConfusion hty, fun _ _ => rfl,
            (List.drop_sublist 1 ('=' :: cs')).trans
              (List.sublist_cons_self ':' ('=' :: cs'))⟩
      · rw [if_neg h3]
        by_cases h4 : ((decide (c = '+') || decide (c = '-')) && headDigit cs) = true
        · rw [if_pos h4]
          refine ⟨fun hty => TokType.noConfusion hty, fun _ _ => ?_, ?_⟩
          · show (c :: cs.takeWhile isAsciiDigit) ++ cs.dropWhile isAsciiDigit = c :: cs
            simp [List.takeWhile_append_dropWhile]
          · exact (List.dropWhile_sublist isAsciiDigit).trans
              (List.sublist_cons_self c cs)
        · rw [if_neg h4]
          by_cases h5 : isAsciiDigit c = true
          · rw [if_pos h5]
            refine ⟨fun hty => TokType.noConfusion hty, fun _ _ => ?_, ?_⟩
            · show (c :: cs).takeWhile isAsciiDigit ++ (c :: cs).dropWhile isAsciiDigit = c :: cs
              exact List.takeWhile_append_dropWhile isAsciiDigit (c :: cs)
            · exact List.dropWhile_sublist isAsciiDigit
          · rw [if_neg h5]
            by_cases h6 : c = '\''
            · rw [if_pos h6]
              cases hsd : scanDelim '\'' cs with
              | none => trivial
              | some pr =>
                obtain ⟨content, rest⟩ := pr
                show LexSpec c cs
                  (match processStringContent content with
                   | .ok decoded =>
                     .tok ⟨.STRING, String.mk decoded, pos⟩ rest (content.length + 2)
                   | .error e => .err e)
                cases hps : processStringContent content with
                | error e => trivial
                | ok decoded =>
                  refine ⟨fun hty => TokType.noConfusion hty,
                    fun _ hne => absurd rfl hne, ?_⟩
                  exact (scanDelim_sublist '\'' cs.length cs le_rfl _ _ hsd).trans
                    (List.sublist_cons_self c cs)
            · rw [if_neg h6]
              by_cases h7 : isIdentStart c = true
              · rw [if_pos h7]
                refine ⟨fun _ => ?_, fun _ _ => ?_, ?_⟩
                · show ((c :: cs).takeWhile isIdentCont).any (fun x => decide (x = ':')) = false
                  rw [List.any_eq_false]
                  intro x hx
                  have hic := List.mem_takeWhile_imp hx
                  simp only [decide_eq_true_eq]
                  intro hxc
                  subst hxc
                  exact absurd hic (by decide)
                · show (c :: cs).takeWhile isIdentCont ++ (c :: cs).dropWhile isIdentCont = c :: cs
                  exact List.takeWhile_append_dropWhile isIdentCont (c :: cs)
                · exact List.dropWhile_sublist isIdentCont
              · rw [if_neg h7]
                by_cases h8 : c = ':'
                · rw [if_pos h8]
                  subst h8
                  exact ⟨fun hty => TokType.noConfusion hty, fun _ _ => rfl,
                    List.sublist_cons_self ':' cs⟩
                · rw [if_neg h8]
                  by_cases h9 : c = '['
                  · rw [if_pos h9]
                    subst h9
                    exact ⟨fun hty => TokType.noConfusion hty, fun _ _ => rfl,
                      List.sublist_cons_self '[' cs⟩
                  · rw [if_neg h9]
                    by_cases h10 : c = ']'
                    · rw [if_pos h10]
                      subst h10
                      exact ⟨fun hty => TokType.noConfusion hty, fun _ _ => rfl,
                        List.sublist_cons_self ']' cs⟩
                    · rw [if_neg h10]
                      by_cases h11 : c = '\x7b'
                      · rw [if_pos h11]
                        subst h11
                        exact ⟨fun hty => TokType.noConfusion hty, fun _ _ => rfl,
                          List.sublist_cons_self '\x7b' cs⟩
                      · rw [if_neg h11]
                        by_cases h12 : c = '\x7d'
                        · rw [if_pos h12]
                          subst h12
                          exact ⟨fun hty => TokType.noConfusion hty, fun _ _ => rfl,
                            List.sublist_cons_self '\x7d' cs⟩
                        · rw [if_neg h12]
                          by_cases h13 : c = '('
                          · rw [if_pos h13]
                            subst h13
                            exact ⟨fun hty => TokType.noConfusion hty, fun _ _ => rfl,
                              List.sublist_cons_self '(' cs⟩
                          · rw [if_neg h13]
                            by_cases h14 : c = ')'
                            · rw [if_pos h14]
                              subst h14
                              exact ⟨fun hty => TokType.noConfusion hty, fun _ _ => rfl,
                                List.sublist_cons_self ')' cs⟩
                            · rw [if_neg h14]
                              by_cases h15 : c = '|'
                              · rw [if_pos h15]
                                subst h15
                                exact ⟨fun hty => TokType.noConfusion hty, fun _ _ => rfl,
                                  List.sublist_cons_self '|' cs⟩
                              · rw [if_neg h15]
                                by_cases h16 : c = '.'
                                · rw [if_pos h16]
                                  subst h16
                                  exact ⟨fun hty => TokType.noConfusion hty, fun _ _ => rfl,
                                    List.sublist_cons_self '.' cs⟩
                                · rw [if_neg h16]
                                  trivial

end SOL25

namespace SOL25

/-- Concatenation of the `value` fields of a token list, as characters. -/
def concatValues : List Token → List Char
  | [] => []
  | t :: ts => t.value.data ++ concatValues ts

/-- Every `IDENT` token emitted by the lexer has a colon-free value. -/
theorem lexLoop_ident_noColon :
    ∀ (fuel : Nat) (cs : List Char) (pos : Nat) (toks : List Token),
      lexLoop fuel cs pos = .ok toks →
      ∀ t ∈ toks, t.type = TokType.IDENT → hasColon t.value = false := by
  intro fuel
  induction fuel with
  | zero =>
    intro cs pos toks h
    cases cs with
    | nil => injection h with h1; subst h1; intro t ht; exact absurd ht (List.not_mem_nil t)
    | cons c cs => exact Except.noConfusion h
  | succ fuel ih =>
    intro cs pos toks h
    cases cs with
    | nil => injection h with h1; subst h1; intro t ht; exact absurd ht (List.not_mem_nil t)
    | cons c cs =>
      unfold lexLoop at h
      split at h
      · -- skip
        exact ih _ _ _ h
      · -- token
        rename_i t' rest n heq
        unfold withTok at h
        split at h
        · rename_i ts' heq2
          injection h with h1
          subst h1
          intro t ht hty
          rcases List.mem_cons.mp ht with rfl | hmem
          · have hspec := lexStep_spec c cs pos
            rw [heq] at hspec
            exact hspec.1 hty
          · exact ih _ _ _ heq2 t hmem hty
        · exact Except.noConfusion h
      · -- lexical error
        exact Except.noConfusion h

/-- For whitespace-free input accepted by the lexer with no comment or string
tokens, the concatenated token values reproduce the input exactly. -/
theorem lexLoop_concat :
    ∀ (fuel : Nat) (cs : List Char) (pos : Nat) (toks : List Token),
      lexLoop fuel cs pos = .ok toks →
      (∀ c ∈ cs, isPySpace c = false) →
      (∀ t ∈ toks, t.type ≠ TokType.COMMENT ∧ t.type ≠ TokType.STRING) →
      concatValues toks = cs := by
  intro fuel
  induction fuel with
  | zero =>
    intro cs pos toks h hsp htk
    cases cs with
    | nil => injection h with h1; subst h1; rfl
    | cons c cs => exact Except.noConfusion h
  | succ fuel ih =>
    intro cs pos toks h hsp htk
    cases cs with
    | nil => injection h with h1; subst h1; rfl
    | cons c cs =>
      unfold lexLoop at h
      split at h
      · -- skip: contradicts the whitespace-freeness hypothesis
        rename_i rest n heq
        have hspec := lexStep_spec c cs pos
        rw [heq] at hspec
        have hspec' : isPySpace c = true := hspec
        rw [hsp c (List.mem_cons_self c cs)] at hspec'
        exact Bool.noConfusion hspec' 
      · -- token
        rename_i t' rest n heq
        unfold withTok at h
        split at h
        · rename_i ts' heq2
          injection h with h1
          subst h1
          have hspec := lexStep_spec c cs pos
          rw [heq] at hspec
          obtain ⟨hident, hcat, hsub⟩ := hspec
          have hrest := ih rest (pos + n) ts' heq2
            (fun x hx => hsp x (hsub.mem hx))
            (fun t ht => htk t (List.mem_cons_of_mem _ ht))
          show t'.value.data ++ concatValues ts' = c :: cs
          rw [hrest]
          exact hcat (htk t' (List.mem_cons_self t' _)).1 (htk t' (List.mem_cons_self t' _)).2
        · exact Except.noConfusion h
      · exact Except.noConfusion h

end SOL25

namespace SOL25

/-! ## Characterisation of the dynamic-attribute collector -/

/-- `x` is registered somewhere in `e`: a send with target `Var("self")` and a
selector ending in `":"` whose `selector[:-1]` is `x` occurs in `e`. -/
def IsRegOcc (x : String) (e : Expr) : Prop :=
  ∃ sel sp args p, SubExpr (Expr.send sel (Expr.var "self" sp) args p) e ∧
    endsColon sel = true ∧ strDropLast sel = x

theorem collectDyn_send (fuel : Nat) (sel : String) (t : Expr) (args : List Expr)
    (p : Nat) (s : List String) :
    collectDyn (fuel+1) (.send sel t args p) s =
      match collectDyn fuel t
          (if registersAttr (.send sel t args p) then
            s ++ [registeredName (.send sel t args p)] else s) with
      | none => none
      | some s2 => args.foldlM (fun acc a => collectDyn fuel a acc) s2 := rfl

theorem collectDyn_blk (fuel : Nat) (ps : List Param) (xs : List Assign)
    (s : List String) :
    collectDyn (fuel+1) (.blk ps xs) s =
      xs.foldlM (fun acc a => collectDyn fuel a.expr acc) s := rfl

theorem collectDyn_lit (fuel : Nat) (lc v : String) (p : Nat) (s : List String) :
    collectDyn (fuel+1) (.lit lc v p) s = some s := rfl

theorem collectDyn_var (fuel : Nat) (n : String) (p : Nat) (s : List String) :
    collectDyn (fuel+1) (.var n p) s = some s := rfl

/-- Monotonicity of an `Option`-valued state fold. -/
theorem foldlM_ok_mono {α : Type} (g : α → List String → Option (List String))
    (hg : ∀ a s out, g a s = some out → ∀ y ∈ s, y ∈ out) :
    ∀ (l : List α) (s out : List String),
      l.foldlM (fun acc a => g a acc) s = some out → ∀ y ∈ s, y ∈ out := by
  intro l
  induction l with
  | nil => intro s out h y hy; rw [List.foldlM_nil] at h; injection h with h1; subst h1; exact hy
  | cons a l ihl =>
    intro s out h y hy
    rw [List.foldlM_cons] at h
    cases hga : g a s with
    | none => rw [hga] at h; exact Option.noConfusion h
    | some s1 =>
      rw [hga] at h
      exact ihl s1 out h y (hg a s s1 hga y hy)

/-- If some element of the fold satisfies `P` and `P` forces membership in
that element's output, the final output contains `x`. -/
theorem foldlM_ok_elem {α : Type} (g : α → List String → Option (List String))
    (x : String) (P : α → Prop)
    (hg : ∀ a s out, g a s = some out → ∀ y ∈ s, y ∈ out)
    (helem : ∀ a s out, g a s = some out → P a → x ∈ out) :
    ∀ (l : List α) (s out : List String),
      l.foldlM (fun acc a => g a acc) s = some out →
      ∀ a ∈ l, P a → x ∈ out := by
  intro l
  induction l with
  | nil => intro s out h a ha; exact absurd ha (List.not_mem_nil a)
  | cons b l ihl =>
    intro s out h a ha hP
    rw [List.foldlM_cons] at h
    cases hgb : g b s with
    | none => rw [hgb] at h; exact Option.noConfusion h
    | some s1 =>
      rw [hgb] at h
      rcases List.mem_cons.mp ha with rfl | hmem
      · exact foldlM_ok_mono g hg l s1 out h x (helem a s s1 hgb hP)
      · exact ihl s1 out h a hmem hP

/-- Everything in the fold's output is either initial or contributed by some
element. -/
theorem foldlM_ok_sound {α : Type} (g : α → List String → Option (List String))
    (x : String) (Q : α → Prop)
    (hsound : ∀ a s out, g a s = some out → x ∈ out → x ∈ s ∨ Q a) :
    ∀ (l : List α) (s out : List String),
      l.foldlM (fun acc a => g a acc) s = some out →
      x ∈ out → x ∈ s ∨ ∃ a ∈ l, Q a := by
  intro l
  induction l with
  | nil =>
    intro s out h hx
    rw [List.foldlM_nil] at h
    injection h with h1
    subst h1
    exact Or.inl hx
  | cons b l ihl =>
    intro s out h hx
    rw [List.foldlM_cons] at h
    cases hgb : g b s with
    | none => rw [hgb] at h; exact Option.noConfusion h
    | some s1 =>
      rw [hgb] at h
      rcases ihl s1 out h hx with hs1 | ⟨a, hmem, hQ⟩
      · rcases hsound b s s1 hgb hs1 with hs | hQ
        · exact Or.inl hs
        · exact Or.inr ⟨b, List.mem_cons_self b l, hQ⟩
      · exact Or.inr ⟨a, List.mem_cons_of_mem b hmem, hQ⟩

/-- The collector only adds names. -/
theorem collectDyn_mono :
    ∀ (fuel : Nat) (e : Expr) (s out : List String),
      collectDyn fuel e s = some out → ∀ y ∈ s, y ∈ out := by
  intro fuel
  induction fuel with
  | zero => intro e s out h; exact Option.noConfusion h
  | succ fuel ih =>
    intro e s out h y hy
    cases e with
    | lit lc v p => rw [collectDyn_lit] at h; injection h with h1; subst h1; exact hy
    | var n p => rw [collectDyn_var] at h; injection h with h1; subst h1; exact hy
    | blk ps xs =>
      rw [collectDyn_blk] at h
      exact foldlM_ok_mono (fun a acc => collectDyn fuel a.expr acc)
        (fun a s1 o1 hg => ih a.expr s1 o1 hg) xs s out h y hy
    | send sel t args p =>
      rw [collectDyn_send] at h
      cases ht : collectDyn fuel t
          (if registersAttr (.send sel t args p) then
            s ++ [registeredName (.send sel t args p)] else s) with
      | none => rw [ht] at h; exact Option.noConfusion h
      | some s2 =>
        rw [ht] at h
        refine foldlM_ok_mono (fun a acc => collectDyn fuel a acc)
          (fun a s1 o1 hg => ih a s1 o1 hg) args s2 out h y ?_
        refine ih t _ s2 ht y ?_
        by_cases hreg : registersAttr (Expr.send sel t args p) = true
        · rw [if_pos hreg]
          exact List.mem_append_left _ hy
        · rw [if_neg hreg]
          exact hy

end SOL25

namespace SOL25

/-- Every registering occurrence contributes its name to the collector's
output. -/
theorem collectDyn_complete :
    ∀ (fuel : Nat) (e : Expr) (s out : List String) (x : String),
      collectDyn fuel e s = some out → IsRegOcc x e → x ∈ out := by
  intro fuel
  induction fuel with
  | zero => intro e s out x h _; exact Option.noConfusion h
  | succ fuel ih =>
    intro e s out x h hocc
    obtain ⟨sel, sp, args0, p0, hsub, hcol, hdrop⟩ := hocc
    cases e with
    | lit lc v p => cases hsub
    | var n p => cases hsub
    | blk ps xs =>
      rw [collectDyn_blk] at h
      cases hsub with
      | blk _ _ a hmem hsube =>
        exact foldlM_ok_elem (fun a acc => collectDyn fuel a.expr acc) x
          (fun a => IsRegOcc x a.expr)
          (fun a s1 o1 hg => collectDyn_mono fuel a.expr s1 o1 hg)
          (fun a s1 o1 hg hP => ih a.expr s1 o1 x hg hP)
          xs s out h a hmem ⟨sel, sp, args0, p0, hsube, hcol, hdrop⟩
    | send sel' t args p =>
      rw [collectDyn_send] at h
      cases ht : collectDyn fuel t
          (if registersAttr (.send sel' t args p) then
            s ++ [registeredName (.send sel' t args p)] else s) with
      | none => rw [ht] at h; exact Option.noConfusion h
      | some s2 =>
        rw [ht] at h
        cases hsub with
        | refl =>
          have hreg : registersAttr (Expr.send sel (Expr.var "self" sp) args0 p0) = true := by
            simp [registersAttr, hcol]
          rw [if_pos hreg] at ht
          have hx1 : x ∈ s ++ [registeredName (Expr.send sel (Expr.var "self" sp) args0 p0)] := by
            apply List.mem_append_right
            simp [registeredName, hdrop]
          have hx2 := collectDyn_mono fuel _ _ _ ht x hx1
          exact foldlM_ok_mono (fun a acc => collectDyn fuel a acc)
            (fun a s1 o1 hg => collectDyn_mono fuel a s1 o1 hg) args0 s2 out h x hx2
        | target _ _ _ hsubt =>
          have hx2 := ih t _ s2 x ht ⟨sel, sp, args0, p0, hsubt, hcol, hdrop⟩
          exact foldlM_ok_mono (fun a acc => collectDyn fuel a acc)
            (fun a s1 o1 hg => collectDyn_mono fuel a s1 o1 hg) args s2 out h x hx2
        | arg _ _ _ _ hmem hsuba =>
          exact foldlM_ok_elem (fun a acc => collectDyn fuel a acc) x
            (fun a => IsRegOcc x a)
            (fun a s1 o1 hg => collectDyn_mono fuel a s1 o1 hg)
            (fun a s1 o1 hg hP => ih a s1 o1 x hg hP)
            args s2 out h _ hmem ⟨sel, sp, args0, p0, hsuba, hcol, hdrop⟩

/-- Everything the collector outputs was initial or comes from a registering
occurrence. -/
theorem collectDyn_sound :
    ∀ (fuel : Nat) (e : Expr) (s out : List String) (x : String),
      collectDyn fuel e s = some out → x ∈ out → x ∈ s ∨ IsRegOcc x e := by
  intro fuel
  induction fuel with
  | zero => intro e s out x h _; exact Option.noConfusion h
  | succ fuel ih =>
    intro e s out x h hx
    cases e with
    | lit lc v p =>
      rw [collectDyn_lit] at h; injection h with h1; subst h1; exact Or.inl hx
    | var n p =>
      rw [collectDyn_var] at h; injection h with h1; subst h1; exact Or.inl hx
    | blk ps xs =>
      rw [collectDyn_blk] at h
      rcases foldlM_ok_sound (fun a acc => collectDyn fuel a.expr acc) x
          (fun a => IsRegOcc x a.expr)
          (fun a s1 o1 hg hxx => ih a.expr s1 o1 x hg hxx)
          xs s out h hx with hs | ⟨a, hmem, sel, sp, args0, p0, hsube, hcol, hdrop⟩
      · exact Or.inl hs
      · exact Or.inr ⟨sel, sp, args0, p0, SubExpr.blk ps xs a hmem hsube, hcol, hdrop⟩
    | send sel' t args p =>
      rw [collectDyn_send] at h
      cases ht : collectDyn fuel t
          (if registersAttr (.send sel' t args p) then
            s ++ [registeredName (.send sel' t args p)] else s) with
      | none => rw [ht] at h; exact Option.noConfusion h
      | some s2 =>
        rw [ht] at h
        rcases foldlM_ok_sound (fun a acc => collectDyn fuel a acc) x
            (fun a => IsRegOcc x a)
            (fun a s1 o1 hg hxx => ih a s1 o1 x hg hxx)
            args s2 out h hx with hs2 | ⟨a, hmem, sel, sp, args0, p0, hsuba, hcol, hdrop⟩
        · rcases ih t _ s2 x ht hs2 with hs1 | ⟨sel, sp, args0, p0, hsubt, hcol, hdrop⟩
          · by_cases hreg : registersAttr (Expr.send sel' t args p) = true
            · rw [if_pos hreg] at hs1
              rcases List.mem_append.mp hs1 with hs | hone
              · exact Or.inl hs
              · right
                cases t with
                | var n sp =>
                  simp only [registersAttr, Bool.and_eq_true, beq_iff_eq] at hreg
                  obtain ⟨hn, hec⟩ := hreg
                  subst hn
                  refine ⟨sel', sp, args, p, SubExpr.refl _, hec, ?_⟩
                  have hxeq := List.mem_singleton.mp hone
                  rw [hxeq]
                  rfl
                | lit lc v pp => simp [registersAttr] at hreg
                | blk ps xs => simp [registersAttr] at hreg
                | send ssel st sargs spp => simp [registersAttr] at hreg
            · rw [if_neg hreg] at hs1
              exact Or.inl hs1
          · exact Or.inr ⟨sel, sp, args0, p0, SubExpr.target sel' args p hsubt, hcol, hdrop⟩
        · exact Or.inr ⟨sel, sp, args0, p0, SubExpr.arg sel' t args p hmem hsuba, hcol, hdrop⟩

end SOL25

namespace SOL25

/-- Class-level registration occurrence: some method of the class contains a
registering self-send for `x`. -/
def ClassRegOcc (x : String) (cls : ClassDef) : Prop :=
  ∃ m ∈ cls.methods, IsRegOcc x (Block.toExpr m.block)

theorem collectBlock_eq (fuel : Nat) (b : Block) (s : List String) :
    collectBlock fuel b s = collectDyn (fuel+1) (Block.toExpr b) s := rfl

/-- Characterisation of a class's collected dynamic attributes. -/
theorem collectClassAttrs_iff (fuel : Nat) (cls : ClassDef) (out : List String)
    (h : collectClassAttrs fuel cls = some out) (x : String) :
    x ∈ out ↔ ClassRegOcc x cls := by
  unfold collectClassAttrs at h
  constructor
  · intro hx
    rcases foldlM_ok_sound (fun m acc => collectBlock fuel m.block acc) x
        (fun m => IsRegOcc x (Block.toExpr m.block))
        (fun m s1 o1 hg hxx => by
          have hg2 : collectBlock fuel m.block s1 = some o1 := hg
          rw [collectBlock_eq] at hg2
          exact collectDyn_sound (fuel+1) _ s1 o1 x hg2 hxx)
        cls.methods [] out h hx with hnil | hex
    · exact absurd hnil (List.not_mem_nil x)
    · exact hex
  · rintro ⟨m, hmem, hocc⟩
    exact foldlM_ok_elem (fun m acc => collectBlock fuel m.block acc) x
      (fun m => IsRegOcc x (Block.toExpr m.block))
      (fun m s1 o1 hg => by
        have hg2 : collectBlock fuel m.block s1 = some o1 := hg
        rw [collectBlock_eq] at hg2
        exact collectDyn_mono (fuel+1) _ s1 o1 hg2)
      (fun m s1 o1 hg hP => by
        have hg2 : collectBlock fuel m.block s1 = some o1 := hg
        rw [collectBlock_eq] at hg2
        exact collectDyn_complete (fuel+1) _ s1 o1 x hg2 hP)
      cls.methods [] out h m hmem hocc

theorem endsColon_append_colon (x : String) : endsColon (x ++ ":") = true := by
  simp [endsColon, String.data_append, List.getLast?_concat]

theorem strDropLast_append_colon (x : String) : strDropLast (x ++ ":") = x := by
  show String.mk (x.data ++ [':']).dropLast = x
  rw [List.dropLast_concat]

/-- A selector ending in `":"` whose `selector[:-1]` is `x` is exactly
`x ++ ":"`. -/
theorem eq_append_colon_of (sel x : String) (hec : endsColon sel = true)
    (hdl : strDropLast sel = x) : sel = x ++ ":" := by
  unfold endsColon at hec
  cases hl : sel.data.getLast? with
  | none => rw [hl] at hec; exact Bool.noConfusion hec
  | some c =>
    rw [hl] at hec
    have hc : c = ':' := by simpa using hec
    subst hc
    have hne : sel.data ≠ [] := by
      intro hnil
      rw [hnil] at hl
      exact Option.noConfusion hl
    have hgl : sel.data.getLast hne = ':' := by
      rw [List.getLast?_eq_getLast sel.data hne] at hl
      exact Option.some_injective _ hl
    have hsplit : sel.data.dropLast ++ [':'] = sel.data := by
      rw [← hgl]
      exact List.dropLast_append_getLast hne
    have hx : x.data = sel.data.dropLast := by
      rw [← hdl]; rfl
    have : sel.data = x.data ++ [':'] := by rw [hx, hsplit]
    calc sel = String.mk sel.data := rfl
    _ = String.mk (x.data ++ [':']) := by rw [this]
    _ = x ++ ":" := rfl

theorem endsColon_eq_false_of_not_hasColon {x : String} (h : hasColon x = false) :
    endsColon x = false := by
  unfold endsColon
  cases hl : x.data.getLast? with
  | none => rfl
  | some c =>
    by_cases hc : c = ':'
    · subst hc
      exfalso
      have hne : x.data ≠ [] := by
        intro hnil
        rw [hnil] at hl
        exact Option.noConfusion hl
      have hgl : x.data.getLast hne = ':' := by
        rw [List.getLast?_eq_getLast x.data hne] at hl
        exact Option.some_injective _ hl
      have hmem : (':' : Char) ∈ x.data := by
        rw [← hgl]
        exact List.getLast_mem hne
      unfold hasColon at h
      rw [List.any_eq_false] at h
      simpa using h ':' hmem
    · simp [hc]

end SOL25
namespace SOL25

/-- `analyze_expr` accepts a variable that is in the environment, leaving the
state unchanged. -/
theorem analyzeExpr_var_ok (cm : ClassMap) (g : List String) (cls : ClassDef)
    (env : Env) (fuel : Nat) (n : String) (p : Nat) (attrs : Attrs)
    (h : envLookup env n ≠ none) :
    analyzeExpr cm g cls env (fuel+1) (.var n p) attrs = .ok attrs := by
  unfold analyzeExpr
  simp only []
  rw [if_neg h]

/-- `analyze_expr` on a zero-argument self-send `self x` whose selector is not
reserved, matches no method of the class, does not end in a colon, and is a
registered dynamic attribute: accepted, state unchanged. -/
theorem analyzeExpr_getter_ok (cm : ClassMap) (g : List String) (cls : ClassDef)
    (env : Env) (fuel : Nat) (x : String) (sp p : Nat) (attrs : Attrs)
    (hres : reservedList.contains x = false)
    (hself : envLookup env "self" ≠ none)
    (hnm : cls.methods.find? (fun m => m.selector = x) = none)
    (hec : endsColon x = false)
    (hmem : (attrsLookup attrs cls.name).contains x = true) :
    analyzeExpr cm g cls env (fuel+2) (.send x (.var "self" sp) [] p) attrs = .ok attrs := by
  unfold analyzeExpr
  simp only []
  rw [if_neg (by rw [hres]; exact Bool.false_ne_true)]
  rw [analyzeExpr_var_ok cm g cls env fuel "self" sp attrs hself]
  simp only [bind, Except.bind, List.foldlM_nil, pure, Except.pure, hnm, hec,
    Bool.false_eq_true, if_false, hmem, if_true]
  rfl

end SOL25

namespace SOL25

/-- `analyze_expr` on a zero-argument self-send `self x` with no matching
method and no registered attribute: `ERR_UNDEFINED_VAR`. -/
theorem analyzeExpr_getter_err (cm : ClassMap) (g : List String) (cls : ClassDef)
    (env : Env) (fuel : Nat) (x : String) (sp p : Nat) (attrs : Attrs)
    (hres : reservedList.contains x = false)
    (hself : envLookup env "self" ≠ none)
    (hnm : cls.methods.find? (fun m => m.selector = x) = none)
    (hec : endsColon x = false)
    (hmem : (attrsLookup attrs cls.name).contains x = false) :
    analyzeExpr cm g cls env (fuel+2) (.send x (.var "self" sp) [] p) attrs =
      .error ERR_UNDEFINED_VAR := by
  unfold analyzeExpr
  simp only []
  rw [if_neg (by rw [hres]; exact Bool.false_ne_true)]
  rw [analyzeExpr_var_ok cm g cls env fuel "self" sp attrs hself]
  simp only [bind, Except.bind, List.foldlM_nil, pure, Except.pure, hnm, hec,
    Bool.false_eq_true, if_false, hmem]
  rfl

/-- `analyze_expr` on a self-send whose selector ends in `":"`, matches no
method, and whose argument count is not 1 (e.g. a multi-colon selector with
its matching argument count): `ERR_ARITY` via the *setter* branch. -/
theorem analyzeExpr_setter_arity (cm : ClassMap) (g : List String) (cls : ClassDef)
    (env : Env) (fuel : Nat) (sel : String) (sp p : Nat) (args : List Expr)
    (attrs attrs2 : Attrs)
    (hres : reservedList.contains sel = false)
    (hself : envLookup env "self" ≠ none)
    (hnm : cls.methods.find? (fun m => m.selector = sel) = none)
    (hec : endsColon sel = true)
    (hlen : args.length ≠ 1)
    (hargs : args.foldlM (fun acc a => analyzeExpr cm g cls env (fuel+1) a acc) attrs =
      .ok attrs2) :
    analyzeExpr cm g cls env (fuel+2) (.send sel (.var "self" sp) args p) attrs =
      .error ERR_ARITY := by
  unfold analyzeExpr
  simp only []
  rw [if_neg (by rw [hres]; exact Bool.false_ne_true)]
  rw [analyzeExpr_var_ok cm g cls env fuel "self" sp attrs hself]
  simp only [bind, Except.bind]
  rw [hargs]
  simp only [hnm, hec, if_true, if_pos hlen]

end SOL25
namespace SOL25

/-! ## Infrastructure for the claim theorems -/

/-- Lexing followed by parsing (the first two phases of `main`). -/
def lexParse (fuel : Nat) (src : String) : Except Nat Program :=
  match tokenize src with
  | .error e => .error e
  | .ok ts =>
    match parseProgram fuel ts with
    | .ok (prog, _) => .ok prog
    | .error .syn => .error ERR_SYNTACTIC
    | .error .fuel => .error ERR_FUEL
    | .error .crash => .error ERR_CRASH

def exceptIsOk {ε α : Type} : Except ε α → Bool
  | .ok _ => true
  | .error _ => false

/-- Any program obtained by lexing and parsing satisfies the parser
invariants (`NodeOk` at every expression node). -/
theorem lexParse_good (fuel : Nat) (src : String) (prog : Program)
    (h : lexParse fuel src = .ok prog) : GoodProg prog := by
  unfold lexParse at h
  cases htok : tokenize src with
  | error e => rw [htok] at h; exact Except.noConfusion h
  | ok ts =>
    rw [htok] at h
    simp only [] at h
    have hts : ∀ t ∈ ts, t.type = TokType.IDENT → hasColon t.value = false :=
      lexLoop_ident_noColon _ _ _ _ htok
    unfold parseProgram at h
    cases hp : parseStep (ts.filter fun t => t.type ≠ TokType.COMMENT) fuel
        PReq.classList ⟨0, 0⟩ with
    | error e => rw [hp] at h; cases e <;> exact Except.noConfusion h
    | ok v =>
      rw [hp] at h
      obtain ⟨r, st⟩ := v
      cases r with
      | classes cs =>
        injection h with h1
        subst h1
        have hts' : ∀ t ∈ ts.filter (fun t => t.type ≠ TokType.COMMENT),
            t.type = TokType.IDENT → hasColon t.value = false :=
          fun t ht => hts t (List.mem_of_mem_filter ht)
        have hinv := parseStep_inv fuel _ hts' _ _ _ _ hp trivial
        intro c hc
        exact hinv c hc
      | klass c => exact Except.noConfusion h
      | methods ms => exact Except.noConfusion h
      | method m => exact Except.noConfusion h
      | sel s => exact Except.noConfusion h
      | blk b => exact Except.noConfusion h
      | params ps => exact Except.noConfusion h
      | assigns xs => exact Except.noConfusion h
      | assign a => exact Except.noConfusion h
      | expr e => exact Except.noConfusion h

end SOL25

namespace SOL25

set_option maxRecDepth 100000

/-! ## Claim C5 -/

/-- Claim C5 counterexample: on the exact input `class A:B{} class B:A{}` the
program does not exit 35 — it exits 31 (`ERR_MISSING_MAIN`), because the
Main-presence check runs before the circular-inheritance check. -/
theorem C5_counterexample :
    pipeline 200 "class A:B\x7b\x7d class B:A\x7b\x7d" = .error ERR_MISSING_MAIN ∧
    ERR_MISSING_MAIN ≠ ERR_SEMANTIC_OTHER :=
  ⟨rfl, by decide⟩

/-- Claim C5 (corrected): `class A:B{} class B:A{}` alone exits 31 (missing
`Main`); once a `Main` class with a `run` method is added, the circular pair
makes the program exit 35 (`ERR_SEMANTIC_OTHER`, circular inheritance). -/
theorem C5_theorem :
    pipeline 300 "class Main:Object\x7brun[|]\x7d class A:B\x7b\x7d class B:A\x7b\x7d" =
      .error ERR_SEMANTIC_OTHER := rfl

/-! ## Claim C10 -/

def src10 : String := "class Main:Object\x7brun[|x:=1:2.]\x7d"

/-- Does the program consist of one class with one method whose single
assignment is a `Send` with the bare-colon selector `":"` and one argument? -/
def colonSendProbe (prog : Program) : Bool :=
  match prog.classes with
  | [c] =>
    match c.methods with
    | [m] =>
      match m.block.assigns with
      | [a] =>
        match a.expr with
        | .send ":" (.lit "Integer" "1" _) [.lit "Integer" "2" _] _ => true
        | _ => false
      | _ => false
    | _ => false
  | _ => false

/-- Claim C10 (confirmed): for the input `class Main:Object{run[|x:=1:2.]}`
the parser accepts the keyword-message tail whose first selector part is a
bare colon, producing a `Send` with selector `":"` and one argument; the
program passes semantic analysis (the pipeline succeeds) and the emitted XML
contains `<send selector=":">`. -/
theorem C10_theorem :
    (match lexParse 300 src10 with
     | .ok prog => colonSendProbe prog
     | .error _ => false) = true ∧
    (match pipeline 300 src10 with
     | .ok xml => containsSeq "<send selector=\":\">".data xml.data
     | .error _ => false) = true :=
  ⟨rfl, rfl⟩

/-! ## Claim C9 -/

/-- Does the program contain an assignment whose left-hand side starts with an
uppercase letter? -/
def upperAssignProbe (prog : Program) : Bool :=
  match prog.classes with
  | [c] =>
    match c.methods with
    | [m] =>
      match m.block.assigns with
      | [a] => headIsUpper a.var
      | _ => false
    | _ => false
  | _ => false

/-- Claim C9 counterexample: the program `class Main:Object{run[|X:=1.]}`,
whose only assignment has the uppercase left-hand side `X`, is *not* rejected
with exit 22 — the whole pipeline succeeds (exit 0). -/
theorem C9_counterexample :
    (match lexParse 300 "class Main:Object\x7brun[|X:=1.]\x7d" with
     | .ok prog => upperAssignProbe prog
     | .error _ => false) = true ∧
    exceptIsOk (pipeline 300 "class Main:Object\x7brun[|X:=1.]\x7d") = true :=
  ⟨rfl, rfl⟩

/-- Claim C9 (corrected): the parser does not reject uppercase-starting
assignment targets; the only left-hand sides it refuses are the reserved
identifiers.  Every assignment in a parsed program has a non-reserved
left-hand-side name (and a program with an uppercase left-hand side can pass
the whole pipeline, see the counterexample). -/
theorem C9_theorem :
    ∀ (fuel : Nat) (src : String) (prog : Program),
      lexParse fuel src = .ok prog →
      ∀ cls ∈ prog.classes, ∀ m ∈ cls.methods,
      ∀ (ps : List Param) (xs : List Assign),
        SubExpr (.blk ps xs) (Block.toExpr m.block) →
        ∀ a ∈ xs, a.var ∉ reservedList := by
  intro fuel src prog h cls hc m hm ps xs hsub a ha
  exact lexParse_good fuel src prog h cls hc m hm _ hsub a ha

def prog9w : Program :=
  ⟨[⟨"Main", "Object", [⟨"run", ⟨[], [⟨"a", 23, .lit "Integer" "1" 26, 1⟩]⟩⟩]⟩], none⟩

/-- Witness for C9: instantiating the theorem on a concrete parse. -/
theorem C9_witness : ("a" : String) ∉ reservedList :=
  C9_theorem 300 "class Main:Object\x7brun[|a:=1.]\x7d" prog9w rfl
    _ (List.mem_cons_self _ _) _ (List.mem_cons_self _ _)
    [] [⟨"a", 23, .lit "Integer" "1" 26, 1⟩] (SubExpr.refl _)
    _ (List.mem_cons_self _ _)

/-! ## Claim C6 -/

/-- Claim C6 counterexample: the source `'a'` contains no whitespace and no
comment, the lexer accepts it, but the emitted STRING token carries the
*decoded* value `a`, so concatenating token values yields `a`, not `'a'`. -/
theorem C6_counterexample :
    tokenize "'a'" = .ok [⟨TokType.STRING, "a", 0⟩] ∧
    concatValues [⟨TokType.STRING, "a", 0⟩] ≠ "'a'".data :=
  ⟨rfl, by decide⟩

/-- Claim C6 (corrected): the lexer round trip holds for sources without
comments and whitespace *and without string literals*: if the lexer accepts
the source, no character of the source is whitespace, and no emitted token is
a COMMENT or STRING token, then concatenating the token values reproduces the
source exactly. -/
theorem C6_theorem :
    ∀ (src : String) (toks : List Token), tokenize src = .ok toks →
      (∀ c ∈ src.data, isPySpace c = false) →
      (∀ t ∈ toks, t.type ≠ TokType.COMMENT ∧ t.type ≠ TokType.STRING) →
      concatValues toks = src.data :=
  fun _ toks h h1 h2 => lexLoop_concat _ _ _ toks h h1 h2

/-- Witness for C6 on the source `x:=1.`. -/
theorem C6_witness :
    concatValues [⟨TokType.IDENT, "x", 0⟩, ⟨TokType.ASSIGN, ":=", 1⟩,
      ⟨TokType.NUMBER, "1", 3⟩, ⟨TokType.DOT, ".", 4⟩] = "x:=1.".data :=
  C6_theorem "x:=1."
    [⟨TokType.IDENT, "x", 0⟩, ⟨TokType.ASSIGN, ":=", 1⟩,
      ⟨TokType.NUMBER, "1", 3⟩, ⟨TokType.DOT, ".", 4⟩]
    rfl (by decide) (by decide)

end SOL25

namespace SOL25

set_option maxRecDepth 100000

/-! ## Claim C3 -/

theorem checkMainMethods_run_arity :
    ∀ (ms : List Method) (f f' : Bool), checkMainMethods ms f = .ok f' →
      ∀ m ∈ ms, m.selector = "run" → m.block.params.length = 0 := by
  intro ms
  induction ms with
  | nil => intro f f' _ m hm; exact absurd hm (List.not_mem_nil m)
  | cons m0 rest ih =>
    intro f f' h m hm hsel
    unfold checkMainMethods at h
    by_cases h0 : m0.selector = "run"
    · rw [if_pos h0] at h
      by_cases h1 : m0.block.params.length ≠ 0
      · rw [if_pos h1] at h; exact Except.noConfusion h
      · rw [if_neg h1] at h
        rcases List.mem_cons.mp hm with rfl | hmem
        · exact not_not.mp h1
        · exact ih true f' h m hmem hsel
    · rw [if_neg h0] at h
      rcases List.mem_cons.mp hm with rfl | hmem
      · exact absurd hsel h0
      · exact ih f f' h m hmem hsel

theorem checkMainClasses_run_arity :
    ∀ (cs : List ClassDef) (f f' : Bool), checkMainClasses cs f = .ok f' →
      ∀ cls ∈ cs, cls.name = "Main" →
      ∀ m ∈ cls.methods, m.selector = "run" → m.block.params.length = 0 := by
  intro cs
  induction cs with
  | nil => intro f f' _ cls hc; exact absurd hc (List.not_mem_nil cls)
  | cons c0 rest ih =>
    intro f f' h cls hc hname m hm hsel
    unfold checkMainClasses at h
    by_cases h0 : c0.name = "Main"
    · rw [if_pos h0] at h
      simp only [bind, Except.bind] at h
      cases hmm : checkMainMethods c0.methods f with
      | error e => rw [hmm] at h; exact Except.noConfusion h
      | ok f1 =>
        rw [hmm] at h
        rcases List.mem_cons.mp hc with rfl | hmem
        · exact checkMainMethods_run_arity _ _ _ hmm m hm hsel
        · exact ih f1 f' h cls hmem hname m hm hsel
    · rw [if_neg h0] at h
      rcases List.mem_cons.mp hc with rfl | hmem
      · exact absurd hname h0
      · exact ih f f' h cls hmem hname m hm hsel

theorem checkMain_run_arity (cs : List ClassDef) (u : Unit)
    (h : checkMain cs = .ok u) :
    ∀ cls ∈ cs, cls.name = "Main" →
    ∀ m ∈ cls.methods, m.selector = "run" → m.block.params.length = 0 := by
  unfold checkMain at h
  simp only [bind, Except.bind] at h
  cases hc : checkMainClasses cs false with
  | error e => rw [hc] at h; exact Except.noConfusion h
  | ok f => exact checkMainClasses_run_arity cs false f hc

theorem analyzeProgram_checkMain (fuel : Nat) (prog : Program) (u : Unit)
    (h : analyzeProgram fuel prog = .ok u) :
    ∃ v, checkMain prog.classes = .ok v := by
  unfold analyzeProgram at h
  simp only [bind, Except.bind] at h
  cases h1 : checkDupClasses prog.classes [] with
  | error e => rw [h1] at h; exact Except.noConfusion h
  | ok cm =>
    rw [h1] at h
    cases h2 : checkDupMethods prog.classes with
    | error e => rw [h2] at h; exact Except.noConfusion h
    | ok w =>
      rw [h2] at h
      cases h3 : checkMain prog.classes with
      | error e => rw [h3] at h; exact Except.noConfusion h
      | ok v => exact ⟨v, rfl⟩

def src3 : String := "class Main:Object\x7brun[|]foo:[|]\x7d"

/-- Does the program consist of one class whose second method has a
one-colon selector but zero parameters? -/
def arityMismatchProbe (prog : Program) : Bool :=
  match prog.classes with
  | [c] =>
    match c.methods with
    | [_, m] => (countColons m.selector == 1) && (m.block.params.length == 0)
    | _ => false
  | _ => false

/-- Claim C3 counterexample: the program `class Main:Object{run[|]foo:[|]}`
defines a method with selector `foo:` (one colon) and zero parameters; it is
accepted by the whole pipeline (exit 0) — the analyzer never compares a
method definition's parameter count against its selector's colon count. -/
theorem C3_counterexample :
    (match lexParse 300 src3 with
     | .ok prog => arityMismatchProbe prog
     | .error _ => false) = true ∧
    exceptIsOk (pipeline 300 src3) = true :=
  ⟨rfl, rfl⟩

/-- Claim C3 (corrected): the selector-arity equality is only enforced for
`run` in class `Main`, where the analyzer requires zero parameters: if
semantic analysis succeeds, every method named `run` of every class named
`Main` has exactly `countColons "run" = 0` parameters. -/
theorem C3_theorem :
    ∀ (fuel : Nat) (prog : Program) (u : Unit), analyzeProgram fuel prog = .ok u →
    ∀ cls ∈ prog.classes, cls.name = "Main" →
    ∀ m ∈ cls.methods, m.selector = "run" →
    m.block.params.length = countColons "run" := by
  intro fuel prog u h cls hc hname m hm hsel
  obtain ⟨v, hv⟩ := analyzeProgram_checkMain fuel prog u h
  rw [show countColons "run" = 0 from rfl]
  exact checkMain_run_arity prog.classes v hv cls hc hname m hm hsel

def progMainW : Program :=
  ⟨[⟨"Main", "Object", [⟨"run", ⟨[], []⟩⟩]⟩], none⟩

/-- Witness for C3 on a concrete analyzed program. -/
theorem C3_witness : ([] : List Param).length = countColons "run" :=
  C3_theorem 10 progMainW () rfl _ (List.mem_cons_self _ _) rfl
    _ (List.mem_cons_self _ _) rfl

/-! ## Claim C4 -/

def src4 : String := "class Main:Object\x7brun[|a:=nil foo.]\x7d"

/-- Does the program consist of one class, one method, one assignment whose
expression is the unary send `foo` to the literal `nil`, with the send node
at position 30 (the `foo` token) and the target at position 26? -/
def unaryPosProbe (prog : Program) : Bool :=
  match prog.classes with
  | [c] =>
    match c.methods with
    | [m] =>
      match m.block.assigns with
      | [a] =>
        match a.expr with
        | .send "foo" (.lit "Nil" "nil" 26) [] 30 => true
        | _ => false
      | _ => false
    | _ => false
  | _ => false

/-- Claim C4 counterexample: in `class Main:Object{run[|a:=nil foo.]}` the
unary send `nil foo` gets position 30 — the position of the `foo` token —
not position 26 of its target expression `nil`. -/
theorem C4_counterexample :
    (match lexParse 300 src4 with
     | .ok prog => unaryPosProbe prog
     | .error _ => false) = true ∧
    (30 : Nat) ≠ 26 :=
  ⟨rfl, by decide⟩

/-- Claim C4 (corrected): only *keyword* sends (selector with at least one
colon) carry their target's position; every such send node in a parsed
program has `pos` equal to the position of its target expression.  Unary
sends instead carry the selector token's position (see the counterexample). -/
theorem C4_theorem :
    ∀ (fuel : Nat) (src : String) (prog : Program),
      lexParse fuel src = .ok prog →
      ∀ cls ∈ prog.classes, ∀ m ∈ cls.methods,
      ∀ (sel : String) (t : Expr) (args : List Expr) (p : Nat),
        SubExpr (.send sel t args p) (Block.toExpr m.block) →
        0 < countColons sel → exprPos? t = some p := by
  intro fuel src prog h cls hc m hm sel t args p hsub hcc
  exact (lexParse_good fuel src prog h cls hc m hm _ hsub).2 hcc

def prog10w : Program :=
  ⟨[⟨"Main", "Object",
      [⟨"run", ⟨[], [⟨"x", 23,
        .send ":" (.lit "Integer" "1" 26) [.lit "Integer" "2" 28] 26, 1⟩]⟩⟩]⟩],
    none⟩

/-- Witness for C4: the keyword send `1:2` carries its target's position. -/
theorem C4_witness : exprPos? (.lit "Integer" "1" 26) = some 26 :=
  C4_theorem 300 src10 prog10w rfl _ (List.mem_cons_self _ _) _ (List.mem_cons_self _ _)
    ":" (.lit "Integer" "1" 26) [.lit "Integer" "2" 28] 26
    (SubExpr.blk [] [⟨"x", 23,
        .send ":" (.lit "Integer" "1" 26) [.lit "Integer" "2" 28] 26, 1⟩]
      ⟨"x", 23, .send ":" (.lit "Integer" "1" 26) [.lit "Integer" "2" 28] 26, 1⟩
      (List.mem_cons_self _ _) (SubExpr.refl _))
    (by decide)

/-! ## Claim C8 -/

/-- Claim C8 (confirmed): in every parsed program, every send node's argument
count equals the number of colons in its selector (unary sends have zero
arguments, keyword sends one argument per colon). -/
theorem C8_theorem :
    ∀ (fuel : Nat) (src : String) (prog : Program),
      lexParse fuel src = .ok prog →
      ∀ cls ∈ prog.classes, ∀ m ∈ cls.methods,
      ∀ (sel : String) (t : Expr) (args : List Expr) (p : Nat),
        SubExpr (.send sel t args p) (Block.toExpr m.block) →
        countColons sel = args.length := by
  intro fuel src prog h cls hc m hm sel t args p hsub
  exact (lexParse_good fuel src prog h cls hc m hm _ hsub).1

def prog8w : Program :=
  ⟨[⟨"Main", "Object",
      [⟨"run", ⟨[], [⟨"a", 23,
        .send "foo" (.lit "Nil" "nil" 26) [] 30, 1⟩]⟩⟩]⟩],
    none⟩

/-- Witness for C8: the unary send `foo` has zero colons and zero arguments. -/
theorem C8_witness : countColons "foo" = ([] : List Expr).length :=
  C8_theorem 300 src4 prog8w rfl _ (List.mem_cons_self _ _) _ (List.mem_cons_self _ _)
    "foo" (.lit "Nil" "nil" 26) [] 30
    (SubExpr.blk [] [⟨"a", 23, .send "foo" (.lit "Nil" "nil" 26) [] 30, 1⟩]
      ⟨"a", 23, .send "foo" (.lit "Nil" "nil" 26) [] 30, 1⟩
      (List.mem_cons_self _ _) (SubExpr.refl _))

end SOL25

namespace SOL25

set_option maxRecDepth 400000

/-! ## Claim C1 -/

def src1 : String := "class Main:Object\x7brun[|z:=self a:1 b:2.] a:b:[:x :y|]\x7d"

/-- Claim C1 counterexample: in
`class Main:Object{run[|z:=self a:1 b:2.] a:b:[:x :y|]}` the self-send has
the two-colon selector `a:b:`; the collector nevertheless registers the name
`a:b` (`selector[:-1]`) as a dynamic attribute of `Main`, and the program is
accepted by the whole pipeline (the send matches the method `a:b:`, so the
getter-arity rejection never happens). -/
theorem C1_counterexample :
    (match lexParse 400 src1 with
     | .ok prog =>
       match prog.classes with
       | [c] => collectClassAttrs 50 c == some ["a:b"]
       | _ => false
     | .error _ => false) = true ∧
    exceptIsOk (pipeline 400 src1) = true ∧
    countColons "a:b:" ≠ 1 :=
  ⟨rfl, rfl, by decide⟩

/-- Claim C1 (corrected): the collector registers `selector[:-1]` for *every*
self-send whose selector ends in a colon, with no restriction to exactly one
colon — a collected attribute set contains a name exactly when some method
contains such a send (first conjunct).  The getter-arity rejection of the
claim applies only to a multi-colon self-send that matches *no* method of the
class: there the analyzer takes the setter branch and raises `ERR_ARITY`
because the argument count (= colon count ≥ 2) is not 1 (second conjunct). -/
theorem C1_theorem :
    (∀ (fuel : Nat) (cls : ClassDef) (out : List String),
       collectClassAttrs fuel cls = some out →
       ∀ x, x ∈ out ↔ ClassRegOcc x cls) ∧
    (∀ (cm : ClassMap) (g : List String) (cls : ClassDef) (env : Env)
       (fuel : Nat) (sel : String) (sp p : Nat) (args : List Expr)
       (attrs attrs2 : Attrs),
       reservedList.contains sel = false →
       envLookup env "self" ≠ none →
       cls.methods.find? (fun m => m.selector = sel) = none →
       endsColon sel = true →
       countColons sel = args.length →
       2 ≤ countColons sel →
       args.foldlM (fun acc a => analyzeExpr cm g cls env (fuel+1) a acc) attrs =
         .ok attrs2 →
       analyzeExpr cm g cls env (fuel+2) (.send sel (.var "self" sp) args p) attrs =
         .error ERR_ARITY) := by
  constructor
  · exact fun fuel cls out h x => collectClassAttrs_iff fuel cls out h x
  · intro cm g cls env fuel sel sp p args attrs attrs2 hres hself hnm hec hcc h2 hargs
    exact analyzeExpr_setter_arity cm g cls env fuel sel sp p args attrs attrs2
      hres hself hnm hec (by omega) hargs

def clsC1w : ClassDef :=
  ⟨"Main", "Object",
    [⟨"run", ⟨[], [⟨"z", 0,
      .send "a:b:" (.var "self" 5) [.lit "Integer" "1" 9, .lit "Integer" "2" 13] 5, 1⟩]⟩⟩]⟩

def clsC1s : ClassDef := ⟨"Main", "Object", []⟩

/-- Witness for C1: the two-colon self-send `self a:1 b:2` registers the
name `a:b`, and with no matching method the same send is rejected with
`ERR_ARITY`. -/
theorem C1_witness :
    (("a:b" : String) ∈ ["a:b"] ↔ ClassRegOcc "a:b" clsC1w) ∧
    analyzeExpr [] [] clsC1s [("self", true)] 2
      (.send "a:b:" (.var "self" 5) [.lit "Integer" "1" 9, .lit "Integer" "2" 13] 5)
      [("Main", [])] = .error ERR_ARITY :=
  ⟨C1_theorem.1 10 clsC1w ["a:b"] rfl "a:b",
   C1_theorem.2 [] [] clsC1s [("self", true)] 0 "a:b:" 5 5
     [.lit "Integer" "1" 9, .lit "Integer" "2" 13] [("Main", [])] [("Main", [])]
     rfl (by decide) rfl rfl (by decide) (by decide) rfl⟩

/-! ## Claim C2 -/

def src2 : String := "class Main:Object\x7brun[|a:=self x:1.b:=self x.]x[:p|]\x7d"

/-- Does the program consist of one class with two methods, the second named
`x`, the first containing an attribute-registering self-send for the name `x`
followed by a zero-argument self-send getter of `x`? -/
def setterGetterProbe (prog : Program) : Bool :=
  match prog.classes with
  | [c] =>
    match c.methods with
    | [m, mx] =>
      (mx.selector == "x") &&
      (match m.block.assigns with
       | [a1, a2] =>
         (registersAttr a1.expr && (registeredName a1.expr == "x")) &&
         (match a2.expr with
          | .send "x" (.var "self" _) [] _ => true
          | _ => false)
       | _ => false)
    | _ => false
  | _ => false

/-- Claim C2 counterexample: in
`class Main:Object{run[|a:=self x:1.b:=self x.]x[:p|]}` the class contains
the setter `self x: 1`, yet the getter `self x` is *not* accepted: the class
also defines a method named `x` (with one parameter), the method lookup
shadows the dynamic-attribute lookup, and the pipeline exits 33
(`ERR_ARITY`). -/
theorem C2_counterexample :
    (match lexParse 400 src2 with
     | .ok prog => setterGetterProbe prog
     | .error _ => false) = true ∧
    pipeline 400 src2 = .error ERR_ARITY :=
  ⟨rfl, rfl⟩

/-- A self-send setter occurrence for name `x` (a send of selector `x ++ ":"`
to `self`) somewhere in a method of the class. -/
def SetterOcc (x : String) (cls : ClassDef) : Prop :=
  ∃ m ∈ cls.methods, ∃ sp args p,
    SubExpr (Expr.send (x ++ ":") (Expr.var "self" sp) args p) (Block.toExpr m.block)

/-- Claim C2 (corrected): the dynamic-attribute law holds only for names that
are not shadowed by a method of the class.  For a getter name `x` with no
colon, not reserved, with `self` in scope and — additionally to the claim —
*no method of the class named `x`*:  (first conjunct) if some method of the
class contains a setter `self x: …`, the collected attributes contain `x` and
the zero-argument getter `self x` is accepted;  (second conjunct) if no
method contains such a setter, the getter fails with `ERR_UNDEFINED_VAR`
(exit 32).  The counterexample shows the extra no-method-named-`x` hypothesis
is necessary. -/
theorem C2_theorem :
    (∀ (fuel : Nat) (cls : ClassDef) (catt : List String) (x : String)
       (cm : ClassMap) (g : List String) (env : Env) (fuel2 : Nat)
       (sp p : Nat) (attrs : Attrs),
       collectClassAttrs fuel cls = some catt →
       SetterOcc x cls →
       reservedList.contains x = false →
       envLookup env "self" ≠ none →
       cls.methods.find? (fun m => m.selector = x) = none →
       hasColon x = false →
       (∀ y ∈ catt, y ∈ attrsLookup attrs cls.name) →
       analyzeExpr cm g cls env (fuel2+2) (.send x (.var "self" sp) [] p) attrs =
         .ok attrs) ∧
    (∀ (fuel : Nat) (cls : ClassDef) (catt : List String) (x : String)
       (cm : ClassMap) (g : List String) (env : Env) (fuel2 : Nat)
       (sp p : Nat) (attrs : Attrs),
       collectClassAttrs fuel cls = some catt →
       ¬ SetterOcc x cls →
       reservedList.contains x = false →
       envLookup env "self" ≠ none →
       cls.methods.find? (fun m => m.selector = x) = none →
       hasColon x = false →
       (∀ y, y ∈ attrsLookup attrs cls.name ↔ y ∈ catt) →
       analyzeExpr cm g cls env (fuel2+2) (.send x (.var "self" sp) [] p) attrs =
         .error ERR_UNDEFINED_VAR) := by
  constructor
  · intro fuel cls catt x cm g env fuel2 sp p attrs hco hsetter hres hself hnm hx hsub
    obtain ⟨m, hm, sp0, args0, p0, hsubx⟩ := hsetter
    have hreg : ClassRegOcc x cls :=
      ⟨m, hm, x ++ ":", sp0, args0, p0, hsubx,
        endsColon_append_colon x, strDropLast_append_colon x⟩
    have hxin : x ∈ catt := (collectClassAttrs_iff fuel cls catt hco x).mpr hreg
    have hmem : (attrsLookup attrs cls.name).contains x = true :=
      strContains_iff.mpr (hsub x hxin)
    exact analyzeExpr_getter_ok cm g cls env fuel2 x sp p attrs hres hself hnm
      (endsColon_eq_false_of_not_hasColon hx) hmem
  · intro fuel cls catt x cm g env fuel2 sp p attrs hco hnos hres hself hnm hx hiff
    have hxout : x ∉ catt := by
      intro hxin
      obtain ⟨m, hm, sel, sp0, args0, p0, hsubx, hec, hdl⟩ :=
        (collectClassAttrs_iff fuel cls catt hco x).mp hxin
      rw [eq_append_colon_of sel x hec hdl] at hsubx
      exact hnos ⟨m, hm, sp0, args0, p0, hsubx⟩
    have hmem : (attrsLookup attrs cls.name).contains x = false := by
      cases hcb : (attrsLookup attrs cls.name).contains x with
      | false => rfl
      | true => exact absurd ((hiff x).mp (strContains_iff.mp hcb)) hxout
    exact analyzeExpr_getter_err cm g cls env fuel2 x sp p attrs hres hself hnm
      (endsColon_eq_false_of_not_hasColon hx) hmem

def clsC2p : ClassDef :=
  ⟨"Main", "Object",
    [⟨"run", ⟨[], [⟨"a", 0,
      .send "x:" (.var "self" 5) [.lit "Integer" "1" 9] 5, 1⟩]⟩⟩]⟩

def clsC2n : ClassDef := ⟨"Main", "Object", [⟨"run", ⟨[], []⟩⟩]⟩

/-- Witness for C2: with an unshadowed setter the getter is accepted; with no
setter at all it fails with `ERR_UNDEFINED_VAR`. -/
theorem C2_witness :
    analyzeExpr [] [] clsC2p [("self", true)] 2
      (.send "x" (.var "self" 0) [] 0) [("Main", ["x"])] = .ok [("Main", ["x"])] ∧
    analyzeExpr [] [] clsC2n [("self", true)] 2
      (.send "x" (.var "self" 0) [] 0) [("Main", [])] = .error ERR_UNDEFINED_VAR := by
  constructor
  · exact C2_theorem.1 3 clsC2p ["x"] "x" [] [] [("self", true)] 0 0 0
      [("Main", ["x"])] rfl
      ⟨⟨"run", ⟨[], [⟨"a", 0, .send "x:" (.var "self" 5) [.lit "Integer" "1" 9] 5, 1⟩]⟩⟩,
        List.mem_cons_self _ _,
        5, [.lit "Integer" "1" 9], 5,
        SubExpr.blk [] [⟨"a", 0, .send "x:" (.var "self" 5) [.lit "Integer" "1" 9] 5, 1⟩]
          ⟨"a", 0, .send "x:" (.var "self" 5) [.lit "Integer" "1" 9] 5, 1⟩
          (List.mem_cons_self _ _) (SubExpr.refl _)⟩
      rfl (by decide) rfl rfl (fun y hy => hy)
  · exact C2_theorem.2 3 clsC2n [] "x" [] [] [("self", true)] 0 0 0
      [("Main", [])] rfl
      (by
        intro hocc
        obtain ⟨m, hm, sp, args, p, hsub⟩ := hocc
        rcases List.mem_cons.mp hm with rfl | hmem
        · cases hsub with
          | blk ps xs a ha _ => exact absurd ha (List.not_mem_nil a)
        · exact absurd hmem (List.not_mem_nil m))
      rfl (by decide) rfl rfl (fun y => Iff.rfl)

end SOL25

namespace SOL25

set_option maxRecDepth 400000

/-! ## Claim C7: the string-literal value transformation

A String literal's decoded value `v` passes through four textual stages on
its way into the final document: `xmlStringValue` (in `genExpr`),
`escapeAttrib` (attribute serialisation), `rilTransform`
(`replace_in_literals` on the matched value group), and the final
`replace("&amp;nbsp;", " ")` of `main`.  `emittedValue` is that composite. -/

def emittedValue (v : List Char) : List Char :=
  replaceSeq "&amp;nbsp;".data " ".data
    (rilTransform (escapeAttrib (xmlStringValue v)))

/-- The per-character image actually realised by `emittedValue`: an
apostrophe becomes backslash-`&apos;`, a backslash is doubled, anything else
is unchanged. -/
def c7CharImage (c : Char) : List Char :=
  if c = '\'' then "\\&apos;".data
  else if c = '\\' then ['\\', '\\']
  else [c]

def c7Map1 (c : Char) : List Char :=
  if c = '\'' then "&apos;".data
  else if c = '\\' then ['\\', '\\']
  else [c]

def c7Map2 (c : Char) : List Char :=
  if c = '\'' then "&amp;apos;".data
  else if c = '\\' then ['\\', '\\']
  else [c]

/-- Concatenation of the images of each character. -/
def charMapConcat (f : Char → List Char) : List Char → List Char
  | [] => []
  | c :: cs => f c ++ charMapConcat f cs

theorem charMapConcat_append (f : Char → List Char) (u w : List Char) :
    charMapConcat f (u ++ w) = charMapConcat f u ++ charMapConcat f w := by
  induction u with
  | nil => rfl
  | cons c cs ih => simp [charMapConcat, ih]

theorem charMapConcat_comp (f g : Char → List Char) (v : List Char) :
    charMapConcat g (charMapConcat f v) =
      charMapConcat (fun c => charMapConcat g (f c)) v := by
  induction v with
  | nil => rfl
  | cons c cs ih => simp [charMapConcat, charMapConcat_append, ih]

theorem charMapConcat_congr (f g : Char → List Char) :
    ∀ v, (∀ c ∈ v, f c = g c) → charMapConcat f v = charMapConcat g v := by
  intro v
  induction v with
  | nil => intro _; rfl
  | cons c cs ih =>
    intro h
    show f c ++ charMapConcat f cs = g c ++ charMapConcat g cs
    rw [h c (List.mem_cons_self _ _), ih (fun d hd => h d (List.mem_cons_of_mem _ hd))]

/-- A single-character `str.replace` is a character-wise map. -/
theorem replaceSeq_single (a : Char) (r : List Char) :
    ∀ v, replaceSeq [a] r v = charMapConcat (fun c => if c = a then r else [c]) v := by
  intro v
  induction v with
  | nil => rfl
  | cons c cs ih =>
    show replaceAux [a] r 0 (c :: cs) = _
    simp only [replaceAux]
    by_cases h : c = a
    · subst h
      have hpt : isPrefixL [c] (c :: cs) = true := by
        show (decide (c = c) && isPrefixL [] cs) = true
        simp [isPrefixL]
      rw [if_pos hpt]
      have ih2 : replaceAux [c] r 0 cs =
          charMapConcat (fun d => if d = c then r else [d]) cs := ih
      show r ++ replaceAux [c] r 0 cs = _
      rw [ih2]
      simp [charMapConcat]
    · have hpf : isPrefixL [a] (c :: cs) = false := by
        show (decide (a = c) && isPrefixL [] cs) = false
        rw [decide_eq_false (fun hh => h hh.symm)]
        rfl
      simp only [hpf, Bool.false_eq_true, if_false]
      have ih2 : replaceAux [a] r 0 cs =
          charMapConcat (fun d => if d = a then r else [d]) cs := ih
      rw [ih2]
      simp [charMapConcat, h]

theorem isPrefixL_append_self : ∀ (p r : List Char), isPrefixL p (p ++ r) = true := by
  intro p
  induction p with
  | nil => intro r; rfl
  | cons c cs ih =>
    intro r
    show (decide (c = c) && isPrefixL cs (cs ++ r)) = true
    simp [ih]

theorem replaceAux_skip (pat repl : List Char) :
    ∀ (u rest : List Char), replaceAux pat repl u.length (u ++ rest) =
      replaceAux pat repl 0 rest := by
  intro u
  induction u with
  | nil => intro rest; rfl
  | cons c cs ih =>
    intro rest
    show replaceAux pat repl (cs.length + 1) (c :: (cs ++ rest)) = _
    simp only [replaceAux]
    exact ih rest

theorem replaceAux_no_head (a0 : Char) (pa repl : List Char) :
    ∀ (u rest : List Char), a0 ∉ u →
      replaceAux (a0 :: pa) repl 0 (u ++ rest) =
        u ++ replaceAux (a0 :: pa) repl 0 rest := by
  intro u
  induction u with
  | nil => intro rest _; rfl
  | cons c cs ih =>
    intro rest hna
    have hc : c ≠ a0 := fun h => hna (by rw [h]; exact List.mem_cons_self _ _)
    show replaceAux (a0 :: pa) repl 0 (c :: (cs ++ rest)) = _
    simp only [replaceAux]
    have hpf : isPrefixL (a0 :: pa) (c :: (cs ++ rest)) = false := by
      show (decide (a0 = c) && isPrefixL pa (cs ++ rest)) = false
      rw [decide_eq_false (fun hh => hc hh.symm)]
      rfl
    simp only [hpf, Bool.false_eq_true, if_false]
    rw [ih rest (fun hmem => hna (List.mem_cons_of_mem _ hmem))]
    rfl

/-- `str.replace` over a character-wise image where every image is either
exactly the pattern or free of the pattern's first character. -/
theorem replaceAux_tokens (a0 : Char) (pa repl : List Char)
    (f g : Char → List Char) :
    ∀ v, (∀ c ∈ v, (f c = a0 :: pa ∧ g c = repl) ∨ (a0 ∉ f c ∧ g c = f c)) →
      replaceAux (a0 :: pa) repl 0 (charMapConcat f v) = charMapConcat g v := by
  intro v
  induction v with
  | nil => intro _; rfl
  | cons c cs ih =>
    intro h
    have hcs := ih (fun d hd => h d (List.mem_cons_of_mem c hd))
    show replaceAux (a0 :: pa) repl 0 (f c ++ charMapConcat f cs) =
      g c ++ charMapConcat g cs
    rcases h c (List.mem_cons_self _ _) with ⟨hf, hg⟩ | ⟨hna, hg⟩
    · rw [hf, hg]
      show replaceAux (a0 :: pa) repl 0 (a0 :: (pa ++ charMapConcat f cs)) = _
      simp only [replaceAux]
      have hpt : isPrefixL (a0 :: pa) (a0 :: (pa ++ charMapConcat f cs)) = true :=
        isPrefixL_append_self (a0 :: pa) (charMapConcat f cs)
      rw [if_pos hpt]
      show repl ++ replaceAux (a0 :: pa) repl pa.length (pa ++ charMapConcat f cs) = _
      rw [replaceAux_skip, hcs]
    · rw [replaceAux_no_head a0 pa repl (f c) _ hna, hcs, hg]

/-- Every `&` is immediately followed by `a` then `p`. -/
def ampApOk : List Char → Bool
  | [] => true
  | c :: cs => ((c != '&') || isPrefixL ['a', 'p'] cs) && ampApOk cs

/-- A pattern starting `&c₂c₃…` with `(c₂, c₃) ≠ (a, p)` matches nowhere in an
`ampApOk` text, so `str.replace` is the identity there. -/
theorem replaceAux_id_amp (c2 c3 : Char) (r repl : List Char)
    (hne : c2 ≠ 'a' ∨ c3 ≠ 'p') :
    ∀ u, ampApOk u = true → replaceAux ('&' :: c2 :: c3 :: r) repl 0 u = u := by
  intro u
  induction u with
  | nil => intro _; rfl
  | cons c cs ih =>
    intro h
    simp only [ampApOk, Bool.and_eq_true] at h
    obtain ⟨h1, h2⟩ := h
    have hpf : isPrefixL ('&' :: c2 :: c3 :: r) (c :: cs) = false := by
      by_cases hc : c = '&'
      · subst hc
        have hap : isPrefixL ['a', 'p'] cs = true := by
          have hff : ('&' != '&') = false := by decide
          rw [hff, Bool.false_or] at h1
          exact h1
        cases cs with
        | nil => exact absurd hap (by decide)
        | cons d ds =>
          have hd : d = 'a' := by
            have h3 := (Bool.and_eq_true _ _).mp hap
            exact (of_decide_eq_true h3.1).symm
          subst hd
          cases ds with
          | nil => exact absurd hap (by decide)
          | cons e es =>
            have he : e = 'p' := by
              have h3 := (Bool.and_eq_true _ _).mp hap
              have h4 := (Bool.and_eq_true _ _).mp h3.2
              exact (of_decide_eq_true h4.1).symm
            subst he
            show (decide ('&' = '&') &&
              (decide (c2 = 'a') && (decide (c3 = 'p') && isPrefixL r es))) = false
            rcases hne with hne | hne
            · rw [decide_eq_false hne]
              simp
            · rw [decide_eq_false hne]
              simp
      · show (decide ('&' = c) && isPrefixL (c2 :: c3 :: r) cs) = false
        rw [decide_eq_false (fun hh => hc hh.symm)]
        rfl
    simp only [replaceAux, hpf, Bool.false_eq_true, if_false]
    rw [ih h2]

/-- The image stream of `c7CharImage` over an `&`-free value is `ampApOk`. -/
theorem ampApOk_image : ∀ v, (∀ c ∈ v, c ≠ '&') →
    ampApOk (charMapConcat c7CharImage v) = true := by
  intro v
  induction v with
  | nil => intro _; rfl
  | cons c cs ih =>
    intro h
    have hcs := ih (fun d hd => h d (List.mem_cons_of_mem _ hd))
    have hc := h c (List.mem_cons_self _ _)
    by_cases h1 : c = '\''
    · subst h1
      exact hcs
    · by_cases h2 : c = '\\'
      · subst h2
        exact hcs
      · have himg : c7CharImage c = [c] := by simp [c7CharImage, h1, h2]
        show ampApOk (c7CharImage c ++ charMapConcat c7CharImage cs) = true
        rw [himg]
        show (((c != '&') || isPrefixL ['a', 'p'] (charMapConcat c7CharImage cs)) &&
          ampApOk (charMapConcat c7CharImage cs)) = true
        rw [show (c != '&') = true from by simp [hc], Bool.true_or, Bool.true_and]
        exact hcs

theorem escapeAttrib_append (u w : List Char) :
    escapeAttrib (u ++ w) = escapeAttrib u ++ escapeAttrib w := by
  induction u with
  | nil => rfl
  | cons c cs ih => simp [escapeAttrib, ih]

theorem escapeAttrib_charMap (f : Char → List Char) (v : List Char) :
    escapeAttrib (charMapConcat f v) =
      charMapConcat (fun c => escapeAttrib (f c)) v := by
  induction v with
  | nil => rfl
  | cons c cs ih => simp [charMapConcat, escapeAttrib_append, ih]

end SOL25

namespace SOL25

set_option maxRecDepth 400000

def src7 : String := "class Main:Object\x7brun[|x:='a\\'b\\\\c'.]\x7d"

/-- Claim C7 counterexample: for the program whose one string literal decodes
to `a'b\c`, the final document renders the apostrophe *backslash-prefixed* as
`\&apos;` (the value attribute reads `a\&apos;b\\c`); the claimed rendering
`a&apos;b…` with no preceding backslash appears nowhere. -/
theorem C7_counterexample :
    (match pipeline 400 src7 with
     | .ok xml => containsSeq "value=\"a\\&apos;b\\\\c\"".data xml.data &&
         !(containsSeq "value=\"a&apos;b".data xml.data)
     | .error _ => false) = true := rfl

/-- Claim C7 (corrected): for a decoded string value built from characters
that are not themselves XML-escaped (`& < > " CR LF TAB`), the value text
emitted into the final document is the character-wise image under
`c7CharImage`: each apostrophe becomes the *six*-character sequence `&apos;`
*preceded by a backslash* (`replace_in_literals` rewrites the serialised
`&amp;apos;` to `\&apos;`), and each backslash becomes two backslashes. -/
theorem C7_theorem :
    ∀ (v : List Char),
      (∀ c ∈ v, c ≠ '&' ∧ c ≠ '<' ∧ c ≠ '>' ∧ c ≠ '"' ∧
        c ≠ '\x0d' ∧ c ≠ '\n' ∧ c ≠ '\t') →
      emittedValue v = charMapConcat c7CharImage v := by
  intro v hv
  have hamp : ∀ c ∈ v, c ≠ '&' := fun c hc => (hv c hc).1
  have h1 : xmlStringValue v = charMapConcat c7Map1 v := by
    unfold xmlStringValue
    rw [replaceSeq_single, replaceSeq_single, charMapConcat_comp]
    apply charMapConcat_congr
    intro c _
    by_cases hq : c = '\''
    · subst hq; decide
    · by_cases hb : c = '\\'
      · subst hb; decide
      · simp [charMapConcat, c7Map1, hq, hb]
  have h2 : escapeAttrib (charMapConcat c7Map1 v) = charMapConcat c7Map2 v := by
    rw [escapeAttrib_charMap]
    apply charMapConcat_congr
    intro c hc
    by_cases hq : c = '\''
    · subst hq; decide
    · by_cases hb : c = '\\'
      · subst hb; decide
      · obtain ⟨ha, hlt, hgt, hqt, hcr, hnl, htb⟩ := hv c hc
        simp [c7Map1, c7Map2, escapeAttrib, escapeAttribChar,
          hq, hb, ha, hlt, hgt, hqt, hcr, hnl, htb]
  have h3 : replaceSeq "&amp;apos;".data "\\&apos;".data (charMapConcat c7Map2 v) =
      charMapConcat c7CharImage v := by
    apply replaceAux_tokens '&' "amp;apos;".data "\\&apos;".data c7Map2 c7CharImage v
    intro c hc
    by_cases hq : c = '\''
    · subst hq
      exact Or.inl ⟨by decide, by decide⟩
    · by_cases hb : c = '\\'
      · subst hb
        exact Or.inr ⟨by decide, by decide⟩
      · refine Or.inr ⟨?_, ?_⟩
        · have himg : c7Map2 c = [c] := by simp [c7Map2, hq, hb]
          rw [himg]
          simp [List.mem_singleton]
          exact fun h => hamp c hc h.symm
        · simp [c7Map2, c7CharImage, hq, hb]
  have h4 : replaceSeq "&#10;".data "\\n".data (charMapConcat c7CharImage v) =
      charMapConcat c7CharImage v :=
    replaceAux_id_amp '#' '1' "0;".data "\\n".data (Or.inl (by decide))
      (charMapConcat c7CharImage v) (ampApOk_image v hamp)
  have h5 : replaceSeq "&amp;nbsp;".data " ".data (charMapConcat c7CharImage v) =
      charMapConcat c7CharImage v :=
    replaceAux_id_amp 'a' 'm' "p;nbsp;".data " ".data (Or.inr (by decide))
      (charMapConcat c7CharImage v) (ampApOk_image v hamp)
  show replaceSeq "&amp;nbsp;".data " ".data
    (replaceSeq "&#10;".data "\\n".data
      (replaceSeq "&amp;apos;".data "\\&apos;".data
        (escapeAttrib (xmlStringValue v)))) = charMapConcat c7CharImage v
  rw [h1, h2, h3, h4, h5]

/-- Witness for C7 at the value `a'b\c`. -/
theorem C7_witness :
    emittedValue ['a', '\'', 'b', '\\', 'c'] = "a\\&apos;b\\\\c".data :=
  ( C7_theorem ['a', '\'', 'b', '\\', 'c'] (by decide)).trans (by decide)

end SOL25
